import Mathlib

/-!
Verification development for the Instagram-coach RAG pipeline
(`src/vector_store.py`, `src/rag_pipeline.py`, `src/utils/prompt_manager.py`,
`src/agent_modes.py`, `api.py`, `src/llm_client.py`, `src/agent.py`,
`src/voice_impact_agent_google_api.py`).

Python values flowing through the pipeline (JSON-loaded post metadata,
profiles, retrieval results) are modelled by the inductive type `PyVal`:
strings, ints, floats (modelled as rationals), bools, lists, and dicts.
Dicts are modelled as insertion-ordered association lists, with assignment
(`d[k] = v`) updating in place when the key exists, exactly as a Python
dict does.  Python dict equality ignores insertion order, which for
duplicate-free association lists is permutation of the entry lists
(`List.Perm`).
-/

inductive Scalar where
  | s (v : String)
  | i (n : Int)
  | f (q : ℚ)
  | b (v : Bool)
deriving DecidableEq, Repr

inductive PyVal where
  | scalar (v : Scalar)
  | list (xs : List PyVal)
  | dict (d : List (String × PyVal))

abbrev PyDict := List (String × PyVal)

/-- Keys of a dict in insertion order (Python `dict.keys()`). -/
def dictKeys (d : PyDict) : List String := d.map Prod.fst

/-- Python `d.get(k)` / `d[k]`: the binding of `k`, if present. -/
def dictLookup : PyDict → String → Option PyVal
  | [], _ => none
  | (k', v) :: d, k => if k' = k then some v else dictLookup d k

/-- Python `d.get(k, default)`. -/
def dictGetD (d : PyDict) (k : String) (v₀ : PyVal) : PyVal :=
  (dictLookup d k).getD v₀

/-- Python dict assignment `d[k] = v`: overwrite in place if the key is
present (Python keeps the original key position), otherwise append. -/
def dictInsert : PyDict → String → PyVal → PyDict
  | [], k, v => [(k, v)]
  | (k', v') :: d, k, v =>
    if k' = k then (k, v) :: d else (k', v') :: dictInsert d k v

theorem dictInsert_of_not_mem {d : PyDict} {k : String} (v : PyVal)
    (h : k ∉ dictKeys d) : dictInsert d k v = d ++ [(k, v)] := by
  induction d with
  | nil => rfl
  | cons p d ih =>
    simp only [dictKeys, List.map_cons, List.mem_cons, not_or] at h
    have h1 : ¬p.1 = k := fun he => h.1 he.symm
    simp [dictInsert, h1, ih (by simpa [dictKeys] using h.2)]

theorem dictKeys_append (d₁ d₂ : PyDict) :
    dictKeys (d₁ ++ d₂) = dictKeys d₁ ++ dictKeys d₂ := by
  simp [dictKeys]

theorem dictKeys_dictInsert_of_not_mem {d : PyDict} {k : String} (v : PyVal)
    (h : k ∉ dictKeys d) : dictKeys (dictInsert d k v) = dictKeys d ++ [k] := by
  rw [dictInsert_of_not_mem v h, dictKeys_append]
  rfl

theorem dictLookup_append_right {d₁ : PyDict} (d₂ : PyDict) {k : String}
    (h : k ∉ dictKeys d₁) : dictLookup (d₁ ++ d₂) k = dictLookup d₂ k := by
  induction d₁ with
  | nil => rfl
  | cons p d ih =>
    simp only [dictKeys, List.map_cons, List.mem_cons, not_or] at h
    have h1 : ¬p.1 = k := fun he => h.1 he.symm
    simp only [List.cons_append, dictLookup, if_neg h1]
    exact ih (by simpa [dictKeys] using h.2)

theorem dictLookup_append_left {d₁ : PyDict} (d₂ : PyDict) {k : String}
    {v : PyVal} (h : dictLookup d₁ k = some v) :
    dictLookup (d₁ ++ d₂) k = some v := by
  induction d₁ with
  | nil => simp [dictLookup] at h
  | cons p d ih =>
    obtain ⟨k', v'⟩ := p
    by_cases hk : k' = k
    · simp only [dictLookup, if_pos hk] at h
      simp [dictLookup, hk, h]
    · simp only [dictLookup, if_neg hk] at h
      simp [dictLookup, hk, ih h]

theorem dictLookup_dictInsert_self (d : PyDict) (k : String) (v : PyVal) :
    dictLookup (dictInsert d k v) k = some v := by
  induction d with
  | nil => simp [dictInsert, dictLookup]
  | cons p d ih =>
    obtain ⟨k', v'⟩ := p
    by_cases hk : k' = k
    · simp [dictInsert, dictLookup, hk]
    · simp [dictInsert, dictLookup, hk, ih]

theorem dictLookup_dictInsert_ne (d : PyDict) {k k' : String} (v : PyVal)
    (h : k' ≠ k) : dictLookup (dictInsert d k' v) k = dictLookup d k := by
  induction d with
  | nil => simp [dictInsert, dictLookup, h]
  | cons p d ih =>
    obtain ⟨k₀, v₀⟩ := p
    by_cases hk : k₀ = k'
    · simp [dictInsert, dictLookup, hk, h]
    · simp only [dictInsert, if_neg hk, dictLookup]
      by_cases hk₀ : k₀ = k
      · simp [hk₀]
      · simp [hk₀, ih]

theorem dictKeys_dictInsert (d : PyDict) (k : String) (v : PyVal) :
    dictKeys (dictInsert d k v) =
      if k ∈ dictKeys d then dictKeys d else dictKeys d ++ [k] := by
  induction d with
  | nil => simp [dictInsert, dictKeys]
  | cons p d ih =>
    obtain ⟨k', v'⟩ := p
    by_cases hk : k' = k
    · subst hk
      simp [dictInsert, dictKeys]
    · have hne : k ≠ k' := fun he => hk he.symm
      simp only [dictInsert, if_neg hk, dictKeys, List.map_cons, List.mem_cons]
      rw [show dictKeys (dictInsert d k v) =
        List.map Prod.fst (dictInsert d k v) from rfl] at ih
      by_cases hmem : k ∈ dictKeys d
      · simp only [dictKeys] at hmem
        simp [ih, dictKeys, hmem, hne]
      · simp only [dictKeys] at hmem
        simp [ih, dictKeys, hmem, hne]

theorem dictKeys_nodup_dictInsert {d : PyDict} (k : String) (v : PyVal)
    (h : (dictKeys d).Nodup) : (dictKeys (dictInsert d k v)).Nodup := by
  rw [dictKeys_dictInsert]
  by_cases hk : k ∈ dictKeys d
  · simpa [hk] using h
  · rw [if_neg hk]
    simp only [List.nodup_append, List.nodup_cons]
    refine ⟨h, by simp, fun a ha hb => ?_⟩
    simp only [List.mem_singleton] at hb
    exact hk (hb ▸ ha)

/-!
Python string primitives used by the pipeline, modelled on `List Char`
(`String` in Lean is definitionally a packed `List Char`).
-/

/-- Helper for `pySplit`: Python `s.split(sep)` for a one-character
separator, accumulating the current fragment in reverse. -/
def splitCharAux (c : Char) : List Char → List Char → List (List Char)
  | [], acc => [acc.reverse]
  | x :: xs, acc =>
    if x = c then acc.reverse :: splitCharAux c xs []
    else splitCharAux c xs (x :: acc)

/-- Python `s.split(sep)` with a one-character separator `c`. -/
def pySplit (s : String) (c : Char) : List String :=
  (splitCharAux c s.data []).map String.mk

/-- Helper for `pyJoin`: Python `sep.join(parts)` on character lists. -/
def joinCharAux (c : Char) : List (List Char) → List Char
  | [] => []
  | [x] => x
  | x :: y :: xs => x ++ c :: joinCharAux c (y :: xs)

/-- Python `sep.join(parts)` with a one-character separator `c`. -/
def pyJoin (c : Char) (parts : List String) : String :=
  String.mk (joinCharAux c (parts.map String.data))

/-- Python `s.startswith(pat)`. -/
def pyStartsWith (s pat : String) : Bool :=
  pat.data.isPrefixOf s.data

/-- Helper for `pyReplace`: Python `s.replace(pat, rep)` on character
lists, replacing every (leftmost, non-overlapping) occurrence.  The
`pat ≠ []` guard is for termination; the pipeline only calls it with
the non-empty pattern string. -/
def replaceCharAux (pat rep : List Char) : List Char → List Char
  | [] => []
  | x :: xs =>
    if pat ≠ [] ∧ pat.isPrefixOf (x :: xs) then
      rep ++ replaceCharAux pat rep ((x :: xs).drop pat.length)
    else
      x :: replaceCharAux pat rep xs
termination_by s => s.length
decreasing_by
  · rename_i h
    simp only [List.length_drop, List.length_cons]
    have : 1 ≤ pat.length := List.length_pos.mpr h.1
    omega
  · simp

/-- Python `s.replace(pat, rep)`. -/
def pyReplace (s pat rep : String) : String :=
  String.mk (replaceCharAux pat.data rep.data s.data)

theorem splitCharAux_of_not_mem {c : Char} {xs : List Char} (acc : List Char)
    (h : c ∉ xs) : splitCharAux c xs acc = [acc.reverse ++ xs] := by
  induction xs generalizing acc with
  | nil => simp [splitCharAux]
  | cons x xs ih =>
    simp only [List.mem_cons, not_or] at h
    rw [splitCharAux, if_neg (fun he => h.1 he.symm), ih _ h.2]
    simp

theorem splitCharAux_append {c : Char} {xs : List Char} (ys acc : List Char)
    (h : c ∉ xs) :
    splitCharAux c (xs ++ c :: ys) acc =
      (acc.reverse ++ xs) :: splitCharAux c ys [] := by
  induction xs generalizing acc with
  | nil => simp [splitCharAux]
  | cons x xs ih =>
    simp only [List.mem_cons, not_or] at h
    rw [List.cons_append, splitCharAux, if_neg (fun he => h.1 he.symm),
      ih _ h.2]
    simp

theorem splitCharAux_joinCharAux {c : Char} {parts : List (List Char)}
    (hne : parts ≠ []) (h : ∀ p ∈ parts, c ∉ p) :
    splitCharAux c (joinCharAux c parts) [] = parts := by
  induction parts with
  | nil => exact absurd rfl hne
  | cons p parts ih =>
    cases parts with
    | nil =>
      rw [joinCharAux, splitCharAux_of_not_mem _ (h p (by simp))]
      simp
    | cons q parts =>
      rw [joinCharAux, splitCharAux_append _ _ (h p (by simp)),
        ih (List.cons_ne_nil _ _) (fun r hr => h r (List.mem_cons_of_mem _ hr))]
      simp

theorem joinCharAux_eq_nil {c : Char} {parts : List (List Char)}
    (h : joinCharAux c parts = []) : parts = [] ∨ parts = [[]] := by
  match parts with
  | [] => exact Or.inl rfl
  | [x] => exact Or.inr (by rw [joinCharAux] at h; rw [h])
  | x :: y :: rest =>
    rw [joinCharAux] at h
    simp at h

theorem pySplit_pyJoin {c : Char} {tags : List String} (hne : tags ≠ [])
    (h : ∀ t ∈ tags, c ∉ t.data) : pySplit (pyJoin c tags) c = tags := by
  unfold pySplit pyJoin
  have hd : (String.mk (joinCharAux c (tags.map String.data))).data
      = joinCharAux c (tags.map String.data) := rfl
  rw [hd, splitCharAux_joinCharAux (by simpa using hne)
    (fun p hp => by
      obtain ⟨t, ht, rfl⟩ := List.mem_map.mp hp
      exact h t ht)]
  rw [List.map_map]
  have : (String.mk ∘ String.data) = id := by
    funext s
    rfl
  rw [this, List.map_id]

theorem replaceCharAux_of_not_infix {pat rep s : List Char}
    (hp : pat ≠ []) (h : ¬ pat <:+: s) : replaceCharAux pat rep s = s := by
  induction s with
  | nil => rw [replaceCharAux]
  | cons x xs ih =>
    rw [replaceCharAux, if_neg, ih (fun hi => h (List.infix_cons hi))]
    rintro ⟨-, hpre⟩
    exact h (List.isPrefixOf_iff_prefix.mp hpre).isInfix

theorem replaceCharAux_append_self {pat rep : List Char} (ys : List Char)
    (hpne : pat ≠ []) :
    replaceCharAux pat rep (pat ++ ys) = rep ++ replaceCharAux pat rep ys := by
  match pat, hpne with
  | p :: ps, _ =>
    rw [show (p :: ps) ++ ys = p :: (ps ++ ys) from rfl, replaceCharAux, if_pos]
    · rw [show p :: (ps ++ ys) = (p :: ps) ++ ys from rfl, List.drop_left]
    · refine ⟨by simp, List.isPrefixOf_iff_prefix.mpr ?_⟩
      rw [show p :: (ps ++ ys) = (p :: ps) ++ ys from rfl]
      exact List.prefix_append _ _

theorem pyReplace_strip {pre k : String} (hp : pre.data ≠ [])
    (h : ¬ pre.data <:+: k.data) : pyReplace (pre ++ k) pre "" = k := by
  unfold pyReplace
  have hd : (pre ++ k).data = pre.data ++ k.data := String.data_append pre k
  rw [hd, replaceCharAux_append_self _ hp,
    replaceCharAux_of_not_infix hp h]
  rfl

/-!
Metadata codec: `VectorStore._flatten_metadata` and
`VectorStore._unflatten_metadata` from `src/vector_store.py`.
-/

/-- Escape for the JSON fallback serializer (backslash and quote). -/
def jsonEscape (s : String) : String :=
  String.mk (s.data.flatMap (fun c =>
    if c = '\\' then ['\\', '\\'] else if c = '"' then ['\\', '"'] else [c]))

/-- Python `json.dumps`, the fallback branch of `_flatten_metadata` for
values that are neither the metrics dict, the hashtags list, nor scalars.
Floats are modelled as rationals, so their rendering is a stand-in; no
theorem below depends on it. -/
def jsonDumps : PyVal → String
  | .scalar (.s v) => "\"" ++ jsonEscape v ++ "\""
  | .scalar (.i n) => toString n
  | .scalar (.f q) => toString q
  | .scalar (.b b) => if b then "true" else "false"
  | .list xs =>
    "[" ++ String.intercalate ", " (xs.attach.map (fun x => jsonDumps x.1)) ++ "]"
  | .dict d =>
    "\x7b" ++ String.intercalate ", " (d.attach.map (fun p =>
      "\"" ++ jsonEscape p.1.1 ++ "\": " ++ jsonDumps p.1.2)) ++ "\x7d"
termination_by v => sizeOf v
decreasing_by
  · have h := List.sizeOf_lt_of_mem x.2
    simp only [PyVal.list.sizeOf_spec]
    omega
  · obtain ⟨⟨a, b⟩, hmem⟩ := p
    have h := List.sizeOf_lt_of_mem hmem
    simp only [Prod.mk.sizeOf_spec] at h
    simp only [PyVal.dict.sizeOf_spec]
    omega

/-- Python `",".join` over hashtag values: succeeds only when every
element is a string (otherwise Python raises `TypeError`). -/
def joinTags (xs : List PyVal) : Option String :=
  (xs.mapM (fun v => match v with
    | PyVal.scalar (Scalar.s t) => some t
    | _ => none)).map (pyJoin ',')

/-- One iteration of the loop in `_flatten_metadata` (lines 202-214 of
`src/vector_store.py`): the `metrics` dict is expanded to `metrics_`-prefixed
keys, the `hashtags` list is comma-joined, scalars pass through, and any
other value is JSON-serialized.  `none` models the `TypeError` Python
raises when joining non-string hashtags. -/
def flattenStep (flat : PyDict) (k : String) (v : PyVal) : Option PyDict :=
  match v with
  | .dict d =>
    if k = "metrics" then
      some (d.foldl (fun acc q => dictInsert acc ("metrics_" ++ q.1) q.2) flat)
    else some (dictInsert flat k (.scalar (.s (jsonDumps (.dict d)))))
  | .list xs =>
    if k = "hashtags" then
      (joinTags xs).map (fun s => dictInsert flat "hashtags" (.scalar (.s s)))
    else some (dictInsert flat k (.scalar (.s (jsonDumps (.list xs)))))
  | .scalar sc => some (dictInsert flat k (.scalar sc))

/-- `VectorStore._flatten_metadata`. -/
def flatten_metadata (m : PyDict) : Option PyDict :=
  m.foldlM (fun flat p => flattenStep flat p.1 p.2) []

/-- The hashtags-restoring branch of `_unflatten_metadata` (line 232):
`value.split(",") if value else []`. -/
def splitHashtags (s : String) : List PyVal :=
  if s = "" then [] else (pySplit s ',').map (fun t => PyVal.scalar (Scalar.s t))

/-- One iteration of the loop in `_unflatten_metadata` (lines 225-234):
`metrics_`-prefixed keys are stripped (Python `str.replace` removes every
occurrence of the pattern) and collected into the metrics dict, a string
`hashtags` field is split back into a list, everything else is copied. -/
def unflattenStep (acc : PyDict × PyDict) (k : String) (v : PyVal) :
    PyDict × PyDict :=
  if pyStartsWith k "metrics_" then
    (acc.1, dictInsert acc.2 (pyReplace k "metrics_" "") v)
  else
    match v with
    | .scalar (.s sv) =>
      if k = "hashtags" then
        (dictInsert acc.1 "hashtags" (.list (splitHashtags sv)), acc.2)
      else (dictInsert acc.1 k v, acc.2)
    | _ => (dictInsert acc.1 k v, acc.2)

/-- `VectorStore._unflatten_metadata`: the metrics dict is attached at the
end only when non-empty (`if metrics:`). -/
def unflatten_metadata (flat : PyDict) : PyDict :=
  let md := flat.foldl (fun acc p => unflattenStep acc p.1 p.2) ([], [])
  if md.2.isEmpty then md.1 else dictInsert md.1 "metrics" (.dict md.2)

/-- A hashtag element the codec can round-trip: a string without commas. -/
def tagOK : PyVal → Bool
  | .scalar (.s t) => decide (',' ∉ t.data)
  | _ => false

/-- The hashtag list `[""]` joins to `""` and comes back as `[]`. -/
def isSingletonEmptyTag : List PyVal → Bool
  | [PyVal.scalar (Scalar.s "")] => true
  | _ => false

/-- A metric key the codec can round-trip: stripping `metrics_` from the
prefixed flat key must give the key back, i.e. the key itself contains no
occurrence of `metrics_`. -/
def metricKeyOK (q : String × PyVal) : Bool :=
  decide (¬ "metrics_".data <:+: q.1.data)

/-- ContentRecord shape of one metadata entry, with the side conditions
under which the codec is invertible: the `metrics` value is a non-empty
dict with duplicate-free, `metrics_`-free keys; the `hashtags` value is a
list of comma-free strings other than `[""]`; every other field is a
scalar whose key does not start with `metrics_`. -/
def entryShapedOK (p : String × PyVal) : Bool :=
  if p.1 = "metrics" then
    match p.2 with
    | PyVal.dict d =>
      !d.isEmpty && decide ((dictKeys d).Nodup) && d.all metricKeyOK
    | _ => false
  else if p.1 = "hashtags" then
    match p.2 with
    | PyVal.list xs => xs.all tagOK && !isSingletonEmptyTag xs
    | _ => false
  else
    match p.2 with
    | PyVal.scalar _ => !pyStartsWith p.1 "metrics_"
    | _ => false

/-- Extract the string of a (shaped) hashtag element. -/
def tagStr : PyVal → String
  | .scalar (.s t) => t
  | _ => ""

/-- Proof-side model of what `_flatten_metadata` appends for one shaped
entry (it agrees with `flattenStep` whenever `entryShapedOK` holds and no
key collision occurs). -/
def flatEntryPure (p : String × PyVal) : PyDict :=
  if p.1 = "metrics" then
    match p.2 with
    | PyVal.dict d => d.map (fun q => ("metrics_" ++ q.1, q.2))
    | v => [(p.1, v)]
  else if p.1 = "hashtags" then
    match p.2 with
    | PyVal.list xs =>
      [("hashtags", PyVal.scalar (Scalar.s (pyJoin ',' (xs.map tagStr))))]
    | v => [(p.1, v)]
  else [(p.1, p.2)]

/-!
Round-trip analysis of the codec.  Under the `entryShapedOK` side
conditions no two flattened keys collide, so the `dictInsert` writes of
`_flatten_metadata` are plain appends and the flattened dict is the
concatenation of the per-entry blocks `flatEntryPure`.
-/

/-- Flat keys contributed by all entries of a metadata dict. -/
def flatKeysAll (m : PyDict) : List String :=
  m.flatMap (fun p => dictKeys (flatEntryPure p))

theorem string_append_left_cancel {a b c : String} (h : a ++ b = a ++ c) :
    b = c := by
  apply String.ext
  have hd := congrArg String.data h
  rw [String.data_append, String.data_append] at hd
  exact List.append_cancel_left hd

theorem pyStartsWith_append_self (k : String) (pre : String) :
    pyStartsWith (pre ++ k) pre = true := by
  unfold pyStartsWith
  rw [String.data_append]
  exact List.isPrefixOf_iff_prefix.mpr (List.prefix_append _ _)

theorem ne_of_startsWith_false {k pre suffx : String}
    (h : pyStartsWith k pre = false) : k ≠ pre ++ suffx := by
  intro he
  rw [he, pyStartsWith_append_self] at h
  cases h

theorem hashtags_not_startsWith_metrics :
    pyStartsWith "hashtags" "metrics_" = false := by decide

theorem metrics_not_startsWith_metrics :
    pyStartsWith "metrics" "metrics_" = false := by decide

theorem joinTags_of_all_tagOK {xs : List PyVal} (h : xs.all tagOK) :
    joinTags xs = some (pyJoin ',' (xs.map tagStr)) := by
  unfold joinTags
  suffices hs : xs.mapM (fun v => match v with
      | PyVal.scalar (Scalar.s t) => some t
      | _ => none) = some (xs.map tagStr) by
    rw [hs]
    rfl
  induction xs with
  | nil => rfl
  | cons x xs ih =>
    simp only [List.all_cons, Bool.and_eq_true] at h
    rw [List.mapM_cons, ih h.2]
    match x, h.1 with
    | PyVal.scalar (Scalar.s t), _ => rfl

theorem foldl_insert_prefixed {d : PyDict} {acc : PyDict} {pre : String}
    (hfresh : ∀ q ∈ d, (pre ++ q.1) ∉ dictKeys acc)
    (hnd : (d.map (fun q => pre ++ q.1)).Nodup) :
    d.foldl (fun acc q => dictInsert acc (pre ++ q.1) q.2) acc =
      acc ++ d.map (fun q => (pre ++ q.1, q.2)) := by
  induction d generalizing acc with
  | nil => simp
  | cons q d ih =>
    simp only [List.map_cons, List.nodup_cons] at hnd
    rw [List.foldl_cons,
      dictInsert_of_not_mem q.2 (hfresh q (List.mem_cons_self _ _)),
      ih, List.map_cons, List.append_assoc]
    · rfl
    · intro r hr
      rw [dictKeys_append]
      simp only [List.mem_append, not_or]
      refine ⟨hfresh r (List.mem_cons_of_mem _ hr), ?_⟩
      simp only [dictKeys, List.map_cons, List.map_nil, List.mem_singleton]
      intro he
      exact hnd.1 (he ▸ List.mem_map_of_mem (fun q => pre ++ q.1) hr)
    · exact hnd.2

theorem dictKeys_flatEntryPure_of_shaped {p : String × PyVal}
    (h : entryShapedOK p = true) :
    dictKeys (flatEntryPure p) =
      if p.1 = "metrics" then
        match p.2 with
        | PyVal.dict d => d.map (fun q => "metrics_" ++ q.1)
        | _ => []
      else [p.1] := by
  unfold entryShapedOK at h
  unfold flatEntryPure
  by_cases hm : p.1 = "metrics"
  · rw [if_pos hm, if_pos hm]
    rw [if_pos hm] at h
    match p.2, h with
    | PyVal.dict d, _ => simp [dictKeys]
  · rw [if_neg hm, if_neg hm]
    rw [if_neg hm] at h
    by_cases hh : p.1 = "hashtags"
    · rw [if_pos hh]
      rw [if_pos hh] at h
      match p.2, h with
      | PyVal.list xs, _ => simp [dictKeys, hh]
    · rw [if_neg hh]
      rw [if_neg hh] at h
      match p.2, h with
      | PyVal.scalar sc, _ => simp [dictKeys]


theorem flattenStep_of_shaped {k : String} {v : PyVal} {flat : PyDict}
    (hsh : entryShapedOK (k, v) = true)
    (hfresh : ∀ a ∈ dictKeys (flatEntryPure (k, v)), a ∉ dictKeys flat) :
    flattenStep flat k v = some (flat ++ flatEntryPure (k, v)) := by
  by_cases hm : k = "metrics"
  · subst hm
    simp only [entryShapedOK, if_pos rfl, if_true] at hsh
    match v, hsh with
    | PyVal.dict d, hsh =>
      simp only [Bool.and_eq_true, decide_eq_true_eq] at hsh
      simp only [flattenStep, if_pos rfl, if_true]
      rw [foldl_insert_prefixed]
      · simp only [flatEntryPure, if_pos rfl, if_true]
      · intro q hq
        apply hfresh
        simp only [flatEntryPure, if_pos rfl, dictKeys]
        exact List.mem_map_of_mem _ (List.mem_map_of_mem _ hq)
      · have : (d.map (fun q => "metrics_" ++ q.1)) =
            (d.map Prod.fst).map (fun mk => "metrics_" ++ mk) := by
          rw [List.map_map]
          exact List.map_congr_left (fun a _ => rfl)
        rw [this]
        exact List.Nodup.map
          (fun a b hab => string_append_left_cancel hab) hsh.1.2
  · by_cases hh : k = "hashtags"
    · subst hh
      simp only [entryShapedOK, if_neg hm, if_pos rfl, if_true] at hsh
      match v, hsh with
      | PyVal.list xs, hsh =>
        simp only [Bool.and_eq_true] at hsh
        simp only [flattenStep, if_pos rfl, if_true,
          joinTags_of_all_tagOK hsh.1, Option.map_some, Option.map_some']
        rw [dictInsert_of_not_mem]
        · simp only [flatEntryPure, if_neg hm, if_pos rfl, if_true]
        · apply hfresh
          simp only [flatEntryPure, if_neg hm, if_pos rfl, dictKeys]
          simp
    · simp only [entryShapedOK, if_neg hm, if_neg hh] at hsh
      match v, hsh with
      | PyVal.scalar sc, hsh =>
        simp only [flattenStep]
        rw [dictInsert_of_not_mem]
        · simp only [flatEntryPure, if_neg hm, if_neg hh]
        · apply hfresh
          simp only [flatEntryPure, if_neg hm, if_neg hh, dictKeys]
          simp

theorem mem_flatKeys_entry {p : String × PyVal} (hsh : entryShapedOK p = true)
    {a : String} (ha : a ∈ dictKeys (flatEntryPure p)) :
    (p.1 = "metrics" ∧ pyStartsWith a "metrics_" = true) ∨
      (p.1 ≠ "metrics" ∧ a = p.1) := by
  rw [dictKeys_flatEntryPure_of_shaped hsh] at ha
  by_cases hm : p.1 = "metrics"
  · rw [if_pos hm] at ha
    left
    refine ⟨hm, ?_⟩
    unfold entryShapedOK at hsh
    rw [if_pos hm] at hsh
    match p.2, hsh, ha with
    | PyVal.dict d, _, ha =>
      obtain ⟨q, _, rfl⟩ := List.mem_map.mp ha
      exact pyStartsWith_append_self _ _
  · rw [if_neg hm] at ha
    exact Or.inr ⟨hm, List.mem_singleton.mp ha⟩

theorem startsWith_false_of_shaped {p : String × PyVal}
    (hsh : entryShapedOK p = true) (hm : p.1 ≠ "metrics") :
    pyStartsWith p.1 "metrics_" = false := by
  unfold entryShapedOK at hsh
  rw [if_neg hm] at hsh
  by_cases hh : p.1 = "hashtags"
  · rw [hh]
    exact hashtags_not_startsWith_metrics
  · rw [if_neg hh] at hsh
    match p.2, hsh with
    | PyVal.scalar sc, hsh => simpa using hsh

theorem flatKeys_entry_nodup {p : String × PyVal}
    (hsh : entryShapedOK p = true) : (dictKeys (flatEntryPure p)).Nodup := by
  rw [dictKeys_flatEntryPure_of_shaped hsh]
  by_cases hm : p.1 = "metrics"
  · rw [if_pos hm]
    unfold entryShapedOK at hsh
    rw [if_pos hm] at hsh
    match p.2, hsh with
    | PyVal.dict d, hsh =>
      simp only [Bool.and_eq_true, decide_eq_true_eq] at hsh
      show (List.map (fun q => "metrics_" ++ q.1) d).Nodup
      have : (d.map (fun q => "metrics_" ++ q.1)) =
          (d.map Prod.fst).map (fun mk => "metrics_" ++ mk) := by
        rw [List.map_map]
        exact List.map_congr_left (fun a _ => rfl)
      rw [this]
      exact List.Nodup.map
        (fun a b hab => string_append_left_cancel hab) hsh.1.2
  · rw [if_neg hm]
    exact List.nodup_singleton _

theorem flatKeys_entries_disjoint {p q : String × PyVal}
    (hp : entryShapedOK p = true) (hq : entryShapedOK q = true)
    (hne : p.1 ≠ q.1) :
    (dictKeys (flatEntryPure p)).Disjoint (dictKeys (flatEntryPure q)) := by
  intro a hap haq
  rcases mem_flatKeys_entry hp hap with ⟨hm1, hs1⟩ | ⟨hm1, ha1⟩ <;>
    rcases mem_flatKeys_entry hq haq with ⟨hm2, hs2⟩ | ⟨hm2, ha2⟩
  · exact hne (hm1.trans hm2.symm)
  · rw [ha2] at hs1
    rw [startsWith_false_of_shaped hq hm2] at hs1
    cases hs1
  · rw [ha1] at hs2
    rw [startsWith_false_of_shaped hp hm1] at hs2
    cases hs2
  · exact hne (ha1 ▸ ha2 ▸ rfl)

theorem flatKeysAll_nodup {m : PyDict}
    (hnd : (dictKeys m).Nodup) (hsh : ∀ p ∈ m, entryShapedOK p = true) :
    (flatKeysAll m).Nodup := by
  induction m with
  | nil => exact List.nodup_nil
  | cons p m ih =>
    simp only [dictKeys, List.map_cons, List.nodup_cons] at hnd
    rw [show flatKeysAll (p :: m) =
      dictKeys (flatEntryPure p) ++ flatKeysAll m from rfl]
    rw [List.nodup_append]
    refine ⟨flatKeys_entry_nodup (hsh p (List.mem_cons_self _ _)),
      ih hnd.2 (fun q hqm => hsh q (List.mem_cons_of_mem _ hqm)), ?_⟩
    intro a hap haq
    obtain ⟨q, hqm, haq⟩ := List.mem_flatMap.mp haq
    have hpq : p.1 ≠ q.1 := by
      intro he
      exact hnd.1 (he ▸ List.mem_map_of_mem Prod.fst hqm)
    exact flatKeys_entries_disjoint (hsh p (List.mem_cons_self _ _))
      (hsh q (List.mem_cons_of_mem _ hqm)) hpq hap haq

theorem foldlM_flatten_of_shaped {m : PyDict} :
    ∀ flat₀ : PyDict,
    (∀ p ∈ m, entryShapedOK p = true) →
    (dictKeys flat₀ ++ flatKeysAll m).Nodup →
    m.foldlM (fun flat p => flattenStep flat p.1 p.2) flat₀ =
      some (flat₀ ++ m.flatMap flatEntryPure) := by
  induction m with
  | nil =>
    intro flat₀ _ _
    simp
  | cons p m ih =>
    intro flat₀ hsh hnd
    rw [show flatKeysAll (p :: m) =
      dictKeys (flatEntryPure p) ++ flatKeysAll m from rfl] at hnd
    have hnd' : ((dictKeys flat₀ ++ dictKeys (flatEntryPure p)) ++
        flatKeysAll m).Nodup := by
      rw [List.append_assoc]
      exact hnd
    have hstep : flattenStep flat₀ p.1 p.2 =
        some (flat₀ ++ flatEntryPure p) := by
      have := @flattenStep_of_shaped p.1 p.2 flat₀
        (by simpa using hsh p (List.mem_cons_self _ _))
      refine this ?_
      intro a ha haf
      rw [List.nodup_append] at hnd
      exact hnd.2.2 haf (by rw [List.mem_append]; left; simpa using ha)
    rw [List.foldlM_cons, hstep]
    have := ih (flat₀ ++ flatEntryPure p)
      (fun q hqm => hsh q (List.mem_cons_of_mem _ hqm))
      (by rwa [dictKeys_append])
    rw [show (some (flat₀ ++ flatEntryPure p) >>= fun b' =>
      List.foldlM (fun flat p => flattenStep flat p.1 p.2) b' m) =
      List.foldlM (fun flat p => flattenStep flat p.1 p.2)
        (flat₀ ++ flatEntryPure p) m from rfl, this]
    rw [List.flatMap_cons, List.append_assoc]

theorem flatten_metadata_of_shaped {m : PyDict}
    (hnd : (dictKeys m).Nodup) (hsh : ∀ p ∈ m, entryShapedOK p = true) :
    flatten_metadata m = some (m.flatMap flatEntryPure) := by
  unfold flatten_metadata
  rw [foldlM_flatten_of_shaped [] hsh
    (by simpa [dictKeys] using flatKeysAll_nodup hnd hsh)]
  rfl

/-- Proof-side model of the non-metrics part `_unflatten_metadata`
rebuilds: the original entries other than `metrics`. -/
def mdPure (m : PyDict) : PyDict := m.filter (fun p => p.1 != "metrics")

/-- Proof-side model of the metrics dict `_unflatten_metadata` collects. -/
def msPure (m : PyDict) : PyDict :=
  (m.filter (fun p => p.1 == "metrics")).flatMap (fun p =>
    match p.2 with
    | PyVal.dict d => d
    | _ => [])

theorem mdPure_cons (p : String × PyVal) (m : PyDict) :
    mdPure (p :: m) =
      if p.1 = "metrics" then mdPure m else p :: mdPure m := by
  unfold mdPure
  by_cases hm : p.1 = "metrics"
  · rw [if_pos hm, List.filter_cons_of_neg (by simp [hm])]
  · rw [if_neg hm, List.filter_cons_of_pos (by simp [hm])]

theorem msPure_cons (p : String × PyVal) (m : PyDict) :
    msPure (p :: m) =
      (if p.1 = "metrics" then
        (match p.2 with
          | PyVal.dict d => d
          | _ => ([] : PyDict))
      else []) ++ msPure m := by
  unfold msPure
  by_cases hm : p.1 = "metrics"
  · rw [if_pos hm, List.filter_cons_of_pos (by simp [hm]), List.flatMap_cons]
  · rw [if_neg hm, List.filter_cons_of_neg (by simp [hm]), List.nil_append]

theorem splitHashtags_join {xs : List PyVal} (h1 : xs.all tagOK = true)
    (h2 : isSingletonEmptyTag xs = false) :
    splitHashtags (pyJoin ',' (xs.map tagStr)) = xs := by
  have htag : ∀ x ∈ xs, ∃ t : String, x = PyVal.scalar (Scalar.s t) ∧
      ',' ∉ t.data := by
    intro x hx
    have := List.all_eq_true.mp h1 x hx
    match x, this with
    | PyVal.scalar (Scalar.s t), h =>
      exact ⟨t, rfl, by simpa [tagOK] using h⟩
  match xs, h2 with
  | [], _ => rfl
  | x :: rest, h2 =>
    have hjoin_ne : pyJoin ',' ((x :: rest).map tagStr) ≠ "" := by
      intro he
      have hdata : joinCharAux ','
          (((x :: rest).map tagStr).map String.data) = [] := by
        have := congrArg String.data he
        exact this
      rcases joinCharAux_eq_nil hdata with h0 | h0
      · simp at h0
      · have hlen := congrArg List.length h0
        simp only [List.length_map, List.length_singleton] at hlen
        match rest, hlen with
        | [], _ =>
          simp only [List.map_cons, List.map_nil] at h0
          have hx : (tagStr x).data = [] := by
            have := List.cons.injEq _ _ _ _ ▸ h0
            simpa using h0
          obtain ⟨t, rfl, -⟩ := htag x (by simp)
          have ht : t = "" := String.ext hx
          subst ht
          simp [isSingletonEmptyTag] at h2
    unfold splitHashtags
    rw [if_neg hjoin_ne, pySplit_pyJoin (by simp)]
    · rw [List.map_map]
      have : ∀ a ∈ x :: rest,
          (PyVal.scalar (Scalar.s (tagStr a)) : PyVal) = a := by
        intro a ha
        obtain ⟨t, rfl, -⟩ := htag a ha
        rfl
      calc (x :: rest).map (fun a => PyVal.scalar (Scalar.s (tagStr a)))
          = (x :: rest).map id := List.map_congr_left this
        _ = x :: rest := List.map_id _
    · intro t ht
      obtain ⟨a, ha, rfl⟩ := List.mem_map.mp ht
      obtain ⟨t0, rfl, hc⟩ := htag a ha
      exact hc

theorem foldl_unflatten_prefixed {d : PyDict} :
    ∀ md ms : PyDict,
    d.all metricKeyOK = true →
    (∀ q ∈ d, q.1 ∉ dictKeys ms) →
    (dictKeys d).Nodup →
    (d.map (fun q => ("metrics_" ++ q.1, q.2))).foldl
      (fun acc p => unflattenStep acc p.1 p.2) (md, ms) = (md, ms ++ d) := by
  induction d with
  | nil =>
    intro md ms _ _ _
    simp
  | cons q d ih =>
    intro md ms hok hfresh hnd
    simp only [List.all_cons, Bool.and_eq_true] at hok
    simp only [dictKeys, List.map_cons, List.nodup_cons] at hnd
    rw [List.map_cons, List.foldl_cons]
    have hstep : unflattenStep (md, ms) ("metrics_" ++ q.1) q.2 =
        (md, ms ++ [q]) := by
      unfold unflattenStep
      rw [if_pos (pyStartsWith_append_self _ _)]
      rw [pyReplace_strip (by decide)
        (by simpa [metricKeyOK] using hok.1)]
      rw [dictInsert_of_not_mem q.2 (hfresh q (List.mem_cons_self _ _))]
    rw [hstep, ih md (ms ++ [q]) hok.2]
    · rw [List.append_assoc]
      rfl
    · intro r hr
      rw [dictKeys_append, List.mem_append]
      rintro (h1 | h1)
      · exact hfresh r (List.mem_cons_of_mem _ hr) h1
      · simp only [dictKeys, List.map_cons, List.map_nil,
          List.mem_singleton] at h1
        exact hnd.1 (h1 ▸ List.mem_map_of_mem Prod.fst hr)
    · exact hnd.2

theorem foldl_unflatten_flatMap {m : PyDict} :
    ∀ md ms : PyDict,
    (∀ p ∈ m, entryShapedOK p = true) →
    (dictKeys md ++ dictKeys (mdPure m)).Nodup →
    (dictKeys ms ++ dictKeys (msPure m)).Nodup →
    (m.flatMap flatEntryPure).foldl
      (fun acc p => unflattenStep acc p.1 p.2) (md, ms) =
      (md ++ mdPure m, ms ++ msPure m) := by
  induction m with
  | nil =>
    intro md ms _ _ _
    simp [mdPure, msPure]
  | cons p m ih =>
    intro md ms hsh hmd hms
    have hshp := hsh p (List.mem_cons_self _ _)
    have hshm := fun q hqm => hsh q (List.mem_cons_of_mem _ hqm)
    rw [List.flatMap_cons, List.foldl_append]
    by_cases hm : p.1 = "metrics"
    · unfold entryShapedOK at hshp
      rw [if_pos hm] at hshp
      match p, hm, hshp with
      | (_, PyVal.dict d), rfl, hshp =>
        simp only [Bool.and_eq_true, decide_eq_true_eq] at hshp
        have hmsc : msPure (("metrics", PyVal.dict d) :: m) =
            d ++ msPure m := by
          rw [msPure_cons]
          rfl
        have hmdc : mdPure (("metrics", PyVal.dict d) :: m) = mdPure m := by
          rw [mdPure_cons, if_pos rfl]
        rw [hmsc] at hms
        rw [hmdc] at hmd
        have hblock : (flatEntryPure ("metrics", PyVal.dict d)).foldl
            (fun acc p => unflattenStep acc p.1 p.2) (md, ms) =
            (md, ms ++ d) := by
          show ((d.map (fun q => ("metrics_" ++ q.1, q.2))).foldl
            (fun acc p => unflattenStep acc p.1 p.2) (md, ms)) = (md, ms ++ d)
          apply foldl_unflatten_prefixed md ms hshp.2
          · intro q hq
            rw [List.nodup_append] at hms
            intro hmem
            exact hms.2.2 hmem (by
              rw [dictKeys_append, List.mem_append]
              left
              exact List.mem_map_of_mem Prod.fst hq)
          · exact hshp.1.2
        rw [hblock, ih md (ms ++ d) hshm hmd]
        · rw [hmsc, hmdc, List.append_assoc]
        · rw [dictKeys_append, List.append_assoc]
          rwa [dictKeys_append] at hms
    · have hmdc : mdPure (p :: m) = p :: mdPure m := by
        rw [mdPure_cons, if_neg hm]
      have hmsc : msPure (p :: m) = msPure m := by
        rw [msPure_cons, if_neg hm, List.nil_append]
      rw [hmdc] at hmd
      rw [hmsc] at hms
      have hfreshp : p.1 ∉ dictKeys md := by
        rw [List.nodup_append] at hmd
        intro hmem
        exact hmd.2.2 hmem (by simp [dictKeys])
      have hblock : (flatEntryPure p).foldl
          (fun acc q => unflattenStep acc q.1 q.2) (md, ms) =
          (md ++ [p], ms) := by
        by_cases hh : p.1 = "hashtags"
        · unfold entryShapedOK at hshp
          rw [if_neg hm, if_pos hh] at hshp
          match p, hh, hshp with
          | (_, PyVal.list xs), rfl, hshp =>
            simp only [Bool.and_eq_true] at hshp
            show List.foldl (fun acc q => unflattenStep acc q.1 q.2) (md, ms)
              [("hashtags", PyVal.scalar (Scalar.s (pyJoin ','
                (xs.map tagStr))))] = (md ++ [("hashtags", PyVal.list xs)], ms)
            rw [List.foldl_cons, List.foldl_nil]
            unfold unflattenStep
            rw [if_neg (by rw [hashtags_not_startsWith_metrics]; simp)]
            simp only [if_pos rfl, if_true]
            rw [splitHashtags_join hshp.1
              (by simpa using hshp.2)]
            rw [dictInsert_of_not_mem _ hfreshp]
        · unfold entryShapedOK at hshp
          rw [if_neg hm, if_neg hh] at hshp
          have hfep : flatEntryPure p = [p] := by
            unfold flatEntryPure
            rw [if_neg hm, if_neg hh]
          rw [hfep, List.foldl_cons, List.foldl_nil]
          match p, hshp, hh, hfreshp with
          | (k, PyVal.scalar sc), hshp, hh, hfreshp =>
            unfold unflattenStep
            rw [if_neg (by rw [show pyStartsWith k "metrics_" = false by
              simpa using hshp]; simp)]
            match sc with
            | Scalar.s sv =>
              simp only [if_neg (by simpa using hh : ¬k = "hashtags")]
              rw [dictInsert_of_not_mem _ hfreshp]
            | Scalar.i n => rw [dictInsert_of_not_mem _ hfreshp]
            | Scalar.f q => rw [dictInsert_of_not_mem _ hfreshp]
            | Scalar.b b => rw [dictInsert_of_not_mem _ hfreshp]
      rw [hblock, ih (md ++ [p]) ms hshm]
      · rw [hmdc, hmsc, List.append_assoc]
        rfl
      · rw [dictKeys_append, List.append_assoc]
        have : dictKeys [p] ++ dictKeys (mdPure m) =
            p.1 :: dictKeys (mdPure m) := rfl
        rw [this]
        exact hmd
      · exact hms

theorem unflatten_flatten_perm {m : PyDict}
    (hnd : (dictKeys m).Nodup) (hsh : ∀ p ∈ m, entryShapedOK p = true) :
    (unflatten_metadata (m.flatMap flatEntryPure)).Perm m := by
  by_cases hmem : "metrics" ∈ dictKeys m
  · obtain ⟨p, hpm, hp1⟩ : ∃ p ∈ m, p.1 = "metrics" := by
      obtain ⟨p, hp, he⟩ := List.mem_map.mp hmem
      exact ⟨p, hp, he⟩
    obtain ⟨k, v⟩ := p
    simp only at hp1
    subst hp1
    have hshp := hsh _ hpm
    unfold entryShapedOK at hshp
    rw [if_pos rfl] at hshp
    match v, hpm, hshp with
    | PyVal.dict d, hpm, hshp =>
      simp only [Bool.and_eq_true, decide_eq_true_eq] at hshp
      obtain ⟨l₁, l₂, rfl⟩ := List.append_of_mem hpm
      have hkeys : dictKeys (l₁ ++ ("metrics", PyVal.dict d) :: l₂) =
          dictKeys l₁ ++ "metrics" :: dictKeys l₂ := by
        simp [dictKeys]
      have hnd' : ("metrics" :: (dictKeys l₁ ++ dictKeys l₂)).Nodup := by
        rw [hkeys] at hnd
        exact List.nodup_middle.mp hnd
      rw [List.nodup_cons] at hnd'
      have hnm1 : ∀ q ∈ l₁, (q.1 != "metrics") = true := by
        intro q hq
        simp only [bne_iff_ne, ne_eq]
        intro he
        exact hnd'.1 (by
          rw [List.mem_append]
          exact Or.inl (he ▸ List.mem_map_of_mem Prod.fst hq))
      have hnm2 : ∀ q ∈ l₂, (q.1 != "metrics") = true := by
        intro q hq
        simp only [bne_iff_ne, ne_eq]
        intro he
        exact hnd'.1 (by
          rw [List.mem_append]
          exact Or.inr (he ▸ List.mem_map_of_mem Prod.fst hq))
      have hmd : mdPure (l₁ ++ ("metrics", PyVal.dict d) :: l₂) = l₁ ++ l₂ := by
        unfold mdPure
        rw [List.filter_append, List.filter_cons_of_neg (by simp),
          List.filter_eq_self.mpr hnm1, List.filter_eq_self.mpr hnm2]
      have hms : msPure (l₁ ++ ("metrics", PyVal.dict d) :: l₂) = d := by
        unfold msPure
        rw [List.filter_append, List.filter_cons_of_pos (by simp)]
        rw [show List.filter (fun p => p.1 == "metrics") l₁ = [] from
          List.filter_eq_nil_iff.mpr (by
            intro q hq
            simpa using (by simpa [bne_iff_ne] using hnm1 q hq : q.1 ≠ "metrics"))]
        rw [show List.filter (fun p => p.1 == "metrics") l₂ = [] from
          List.filter_eq_nil_iff.mpr (by
            intro q hq
            simpa using (by simpa [bne_iff_ne] using hnm2 q hq : q.1 ≠ "metrics"))]
        simp
      unfold unflatten_metadata
      rw [foldl_unflatten_flatMap [] [] hsh
        (by
          rw [hmd]
          simpa [dictKeys] using hnd'.2)
        (by
          rw [hms]
          simpa [dictKeys] using hshp.1.2)]
      rw [hmd, hms]
      simp only [List.nil_append]
      rw [if_neg (by
        simp only [List.isEmpty_iff]
        intro he
        rw [he] at hshp
        simp at hshp)]
      rw [dictInsert_of_not_mem _ (by
        rw [dictKeys_append, List.mem_append]
        rintro (h1 | h1) <;> exact hnd'.1 (by
          rw [List.mem_append]
          first
            | exact Or.inl h1
            | exact Or.inr h1))]
      exact (List.perm_append_singleton _ _).trans List.perm_middle.symm
  · have hall : ∀ p ∈ m, (p.1 != "metrics") = true := by
      intro p hp
      simp only [bne_iff_ne, ne_eq]
      intro he
      exact hmem (he ▸ List.mem_map_of_mem Prod.fst hp)
    have hmd : mdPure m = m := List.filter_eq_self.mpr hall
    have hms : msPure m = [] := by
      unfold msPure
      rw [List.filter_eq_nil_iff.mpr (by
        intro q hq
        simpa using (by simpa [bne_iff_ne] using hall q hq : q.1 ≠ "metrics"))]
      rfl
    unfold unflatten_metadata
    rw [foldl_unflatten_flatMap [] [] hsh
      (by
        rw [hmd]
        simpa [dictKeys] using hnd)
      (by simp [hms, dictKeys])]
    rw [hmd, hms]
    simp

/-- ContentRecord-shaped metadata (a hashtags list of strings) whose
hashtag contains a comma. -/
def roundtripCexM : PyDict :=
  [("hashtags", PyVal.list [PyVal.scalar (Scalar.s "a,b")])]

/-- A representative ContentRecord-shaped metadata dict. -/
def roundtripWitnessM : PyDict :=
  [("id", PyVal.scalar (Scalar.s "p1")),
   ("caption", PyVal.scalar (Scalar.s "Sunset")),
   ("media_type", PyVal.scalar (Scalar.s "photo")),
   ("metrics", PyVal.dict [("likes", PyVal.scalar (Scalar.i 120)),
     ("comments", PyVal.scalar (Scalar.i 8)),
     ("engagement_rate", PyVal.scalar (Scalar.f (21/10)))]),
   ("hashtags", PyVal.list [PyVal.scalar (Scalar.s "sunset"),
     PyVal.scalar (Scalar.s "beach")])]

/-- C1 counterexample: for the ContentRecord-shaped mapping
`{"hashtags": ["a,b"]}` — a hashtags list of strings — flattening joins on
commas and unflattening splits on commas, so the round trip returns
`{"hashtags": ["a", "b"]}`, which is not equal (as a Python dict, i.e. up
to entry permutation) to the original mapping.  The claim as stated is
therefore false. -/
theorem c1_roundtrip_counterexample :
    flatten_metadata roundtripCexM =
      some [("hashtags", PyVal.scalar (Scalar.s "a,b"))] ∧
    unflatten_metadata [("hashtags", PyVal.scalar (Scalar.s "a,b"))] =
      [("hashtags", PyVal.list
        [PyVal.scalar (Scalar.s "a"), PyVal.scalar (Scalar.s "b")])] ∧
    ¬ (unflatten_metadata
        [("hashtags", PyVal.scalar (Scalar.s "a,b"))]).Perm roundtripCexM := by
  refine ⟨rfl, rfl, ?_⟩
  intro h
  rw [show unflatten_metadata [("hashtags", PyVal.scalar (Scalar.s "a,b"))] =
    [("hashtags", PyVal.list
      [PyVal.scalar (Scalar.s "a"), PyVal.scalar (Scalar.s "b")])] from rfl]
    at h
  have heq := List.perm_singleton.mp h
  simp only [roundtripCexM, List.cons.injEq, Prod.mk.injEq, PyVal.list.injEq,
    PyVal.scalar.injEq, Scalar.s.injEq, and_true, true_and] at heq
  exact absurd heq.1 (by decide)

/-- C1 (amended): for every ContentRecord-shaped metadata dict `m`
(duplicate-free keys; a nested `metrics` dict; a `hashtags` list of
strings; scalar other fields) satisfying the invertibility side conditions
of `entryShapedOK` (hashtags are comma-free and not `[""]`, the metrics
dict is non-empty with duplicate-free `metrics_`-free keys, and no scalar
key starts with `metrics_`), flattening succeeds and unflattening the
result returns `m` exactly, as Python dict equality (permutation of the
duplicate-free entry list). -/
theorem flatten_unflatten_roundtrip (m : PyDict)
    (hnd : (dictKeys m).Nodup)
    (hsh : ∀ p ∈ m, entryShapedOK p = true) :
    ∃ f, flatten_metadata m = some f ∧ (unflatten_metadata f).Perm m :=
  ⟨m.flatMap flatEntryPure, flatten_metadata_of_shaped hnd hsh,
    unflatten_flatten_perm hnd hsh⟩

/-- Witness for C1 on a representative ContentRecord-shaped dict. -/
theorem flatten_unflatten_roundtrip_witness :
    (dictKeys roundtripWitnessM).Nodup ∧
    (∀ p ∈ roundtripWitnessM, entryShapedOK p = true) ∧
    ∃ f, flatten_metadata roundtripWitnessM = some f ∧
      (unflatten_metadata f).Perm roundtripWitnessM :=
  ⟨by decide, by decide,
    flatten_unflatten_roundtrip roundtripWitnessM (by decide) (by decide)⟩

theorem dictLookup_eq_some_decomp {d : PyDict} {k : String} {v : PyVal}
    (h : dictLookup d k = some v) :
    ∃ g₁ g₂, d = g₁ ++ (k, v) :: g₂ ∧ k ∉ dictKeys g₁ := by
  induction d with
  | nil => simp [dictLookup] at h
  | cons p d ih =>
    obtain ⟨k', v'⟩ := p
    by_cases hk : k' = k
    · subst hk
      simp only [dictLookup, if_pos rfl, if_true, Option.some.injEq] at h
      subst h
      exact ⟨[], d, rfl, by simp [dictKeys]⟩
    · simp only [dictLookup, if_neg hk] at h
      obtain ⟨g₁, g₂, rfl, hg⟩ := ih h
      refine ⟨(k', v') :: g₁, g₂, rfl, ?_⟩
      simp only [dictKeys, List.map_cons, List.mem_cons, not_or]
      exact ⟨fun he => hk he.symm, by simpa [dictKeys] using hg⟩

theorem foldl_insert_prefixed_nodup {d : PyDict} :
    ∀ acc : PyDict, (dictKeys acc).Nodup →
    (dictKeys (d.foldl
      (fun acc q => dictInsert acc ("metrics_" ++ q.1) q.2) acc)).Nodup := by
  induction d with
  | nil => exact fun acc h => h
  | cons q d ih =>
    intro acc h
    rw [List.foldl_cons]
    exact ih _ (dictKeys_nodup_dictInsert _ _ h)

theorem flattenStep_nodup {flat flat' : PyDict} {k : String} {v : PyVal}
    (hnd : (dictKeys flat).Nodup) (h : flattenStep flat k v = some flat') :
    (dictKeys flat').Nodup := by
  match v, h with
  | PyVal.dict d, h =>
    simp only [flattenStep] at h
    by_cases hk : k = "metrics"
    · rw [if_pos hk, Option.some.injEq] at h
      subst h
      exact foldl_insert_prefixed_nodup _ hnd
    · rw [if_neg hk, Option.some.injEq] at h
      subst h
      exact dictKeys_nodup_dictInsert _ _ hnd
  | PyVal.list xs, h =>
    simp only [flattenStep] at h
    by_cases hk : k = "hashtags"
    · rw [if_pos hk] at h
      cases hj : joinTags xs with
      | none => rw [hj] at h; simp at h
      | some s =>
        rw [hj] at h
        simp only [Option.map_some, Option.map_some', Option.some.injEq] at h
        subst h
        exact dictKeys_nodup_dictInsert _ _ hnd
    · rw [if_neg hk, Option.some.injEq] at h
      subst h
      exact dictKeys_nodup_dictInsert _ _ hnd
  | PyVal.scalar sc, h =>
    simp only [flattenStep, Option.some.injEq] at h
    subst h
    exact dictKeys_nodup_dictInsert _ _ hnd

theorem foldlM_flatten_nodup {m : PyDict} :
    ∀ {flat f : PyDict}, (dictKeys flat).Nodup →
    m.foldlM (fun flat p => flattenStep flat p.1 p.2) flat = some f →
    (dictKeys f).Nodup := by
  induction m with
  | nil =>
    intro flat f h hf
    simp only [List.foldlM_nil, Option.pure_def, Option.some.injEq] at hf
    exact hf ▸ h
  | cons p m ih =>
    intro flat f h hf
    rw [List.foldlM_cons] at hf
    cases hs : flattenStep flat p.1 p.2 with
    | none => rw [hs] at hf; simp at hf
    | some flat' =>
      rw [hs] at hf
      exact ih (flattenStep_nodup h hs) hf

theorem flatten_metadata_nodup {m f : PyDict}
    (h : flatten_metadata m = some f) : (dictKeys f).Nodup :=
  foldlM_flatten_nodup (by simp [dictKeys]) h

theorem flattenStep_lookup_preserved {flat flat' : PyDict} {k : String}
    {v : PyVal} {a : String} (hka : a ≠ k)
    (has : pyStartsWith a "metrics_" = false)
    (h : flattenStep flat k v = some flat') :
    dictLookup flat' a = dictLookup flat a := by
  match v, h with
  | PyVal.dict d, h =>
    simp only [flattenStep] at h
    by_cases hk : k = "metrics"
    · rw [if_pos hk, Option.some.injEq] at h
      subst h
      have hgen : ∀ (d : PyDict) (flat : PyDict),
          dictLookup (d.foldl
            (fun acc q => dictInsert acc ("metrics_" ++ q.1) q.2) flat) a =
          dictLookup flat a := by
        intro d
        induction d with
        | nil => intro flat; rfl
        | cons q d ihd =>
          intro flat
          rw [List.foldl_cons, ihd]
          refine dictLookup_dictInsert_ne _ _ (fun he => ?_)
          rw [← he, pyStartsWith_append_self] at has
          simp at has
      exact hgen d flat
    · rw [if_neg hk, Option.some.injEq] at h
      subst h
      exact dictLookup_dictInsert_ne _ _ (fun he => hka he.symm)
  | PyVal.list xs, h =>
    simp only [flattenStep] at h
    by_cases hk : k = "hashtags"
    · rw [if_pos hk] at h
      cases hj : joinTags xs with
      | none => rw [hj] at h; simp at h
      | some s =>
        rw [hj] at h
        simp only [Option.map_some, Option.map_some', Option.some.injEq] at h
        subst h
        exact dictLookup_dictInsert_ne _ _ (fun he => hka (he.symm.trans hk.symm))
    · rw [if_neg hk, Option.some.injEq] at h
      subst h
      exact dictLookup_dictInsert_ne _ _ (fun he => hka he.symm)
  | PyVal.scalar sc, h =>
    simp only [flattenStep, Option.some.injEq] at h
    subst h
    exact dictLookup_dictInsert_ne _ _ (fun he => hka he.symm)

theorem foldlM_flatten_lookup_preserved {l : PyDict} :
    ∀ {flat f : PyDict} {a : String},
    a ∉ dictKeys l → pyStartsWith a "metrics_" = false →
    l.foldlM (fun flat p => flattenStep flat p.1 p.2) flat = some f →
    dictLookup f a = dictLookup flat a := by
  induction l with
  | nil =>
    intro flat f a _ _ hf
    simp only [List.foldlM_nil, Option.pure_def, Option.some.injEq] at hf
    exact hf ▸ rfl
  | cons p l ih =>
    intro flat f a hmem has hf
    simp only [dictKeys, List.map_cons, List.mem_cons, not_or] at hmem
    rw [List.foldlM_cons] at hf
    cases hs : flattenStep flat p.1 p.2 with
    | none => rw [hs] at hf; simp at hf
    | some flat' =>
      rw [hs] at hf
      rw [ih (by simpa [dictKeys] using hmem.2) has hf]
      exact flattenStep_lookup_preserved hmem.1 has hs

theorem unflattenStep_fst_lookup_ne (acc : PyDict × PyDict) (k : String)
    (v : PyVal) (hk : k ≠ "hashtags") :
    dictLookup (unflattenStep acc k v).1 "hashtags" =
      dictLookup acc.1 "hashtags" := by
  match v with
  | PyVal.scalar (Scalar.s sv) =>
    simp only [unflattenStep]
    by_cases hpre : pyStartsWith k "metrics_" = true
    · rw [if_pos hpre]
    · rw [if_neg hpre, if_neg hk]
      exact dictLookup_dictInsert_ne _ _ hk
  | PyVal.scalar (Scalar.i n) =>
    simp only [unflattenStep]
    by_cases hpre : pyStartsWith k "metrics_" = true
    · rw [if_pos hpre]
    · rw [if_neg hpre]
      exact dictLookup_dictInsert_ne _ _ hk
  | PyVal.scalar (Scalar.f q) =>
    simp only [unflattenStep]
    by_cases hpre : pyStartsWith k "metrics_" = true
    · rw [if_pos hpre]
    · rw [if_neg hpre]
      exact dictLookup_dictInsert_ne _ _ hk
  | PyVal.scalar (Scalar.b b) =>
    simp only [unflattenStep]
    by_cases hpre : pyStartsWith k "metrics_" = true
    · rw [if_pos hpre]
    · rw [if_neg hpre]
      exact dictLookup_dictInsert_ne _ _ hk
  | PyVal.list xs =>
    simp only [unflattenStep]
    by_cases hpre : pyStartsWith k "metrics_" = true
    · rw [if_pos hpre]
    · rw [if_neg hpre]
      exact dictLookup_dictInsert_ne _ _ hk
  | PyVal.dict d =>
    simp only [unflattenStep]
    by_cases hpre : pyStartsWith k "metrics_" = true
    · rw [if_pos hpre]
    · rw [if_neg hpre]
      exact dictLookup_dictInsert_ne _ _ hk

theorem foldl_unflatten_lookup_preserved {l : PyDict} :
    ∀ acc : PyDict × PyDict, "hashtags" ∉ dictKeys l →
    dictLookup (l.foldl (fun acc p => unflattenStep acc p.1 p.2) acc).1
        "hashtags" =
      dictLookup acc.1 "hashtags" := by
  induction l with
  | nil => exact fun acc _ => rfl
  | cons p l ih =>
    intro acc hmem
    simp only [dictKeys, List.map_cons, List.mem_cons, not_or] at hmem
    rw [List.foldl_cons, ih _ (by simpa [dictKeys] using hmem.2)]
    exact unflattenStep_fst_lookup_ne _ _ _ (fun he => hmem.1 he.symm)

theorem unflatten_lookup_hashtags {flat : PyDict} {sv : String}
    (hnd : (dictKeys flat).Nodup)
    (h : dictLookup flat "hashtags" = some (PyVal.scalar (Scalar.s sv))) :
    dictLookup (unflatten_metadata flat) "hashtags" =
      some (PyVal.list (splitHashtags sv)) := by
  obtain ⟨g₁, g₂, heq, hg1⟩ := dictLookup_eq_some_decomp h
  subst heq
  have hg2 : "hashtags" ∉ dictKeys g₂ := by
    have hkeys : dictKeys (g₁ ++ ("hashtags", PyVal.scalar (Scalar.s sv)) :: g₂)
        = dictKeys g₁ ++ "hashtags" :: dictKeys g₂ := by simp [dictKeys]
    rw [hkeys] at hnd
    have := (List.nodup_middle.mp hnd)
    rw [List.nodup_cons] at this
    intro hmem
    exact this.1 (List.mem_append.mpr (Or.inr hmem))
  unfold unflatten_metadata
  rw [List.foldl_append, List.foldl_cons]
  have hstep : ∀ acc : PyDict × PyDict,
      unflattenStep acc "hashtags" (PyVal.scalar (Scalar.s sv)) =
        (dictInsert acc.1 "hashtags" (PyVal.list (splitHashtags sv)), acc.2) :=
    fun acc => rfl
  rw [hstep]
  have h1 : dictLookup ((g₂.foldl (fun acc p => unflattenStep acc p.1 p.2)
      (dictInsert (g₁.foldl (fun acc p => unflattenStep acc p.1 p.2)
          ([], [])).1 "hashtags" (PyVal.list (splitHashtags sv)),
        (g₁.foldl (fun acc p => unflattenStep acc p.1 p.2) ([], [])).2))).1
      "hashtags" = some (PyVal.list (splitHashtags sv)) := by
    rw [foldl_unflatten_lookup_preserved _ hg2]
    exact dictLookup_dictInsert_self _ _ _
  by_cases he : ((g₂.foldl (fun acc p => unflattenStep acc p.1 p.2)
      (dictInsert (g₁.foldl (fun acc p => unflattenStep acc p.1 p.2)
          ([], [])).1 "hashtags" (PyVal.list (splitHashtags sv)),
        (g₁.foldl (fun acc p => unflattenStep acc p.1 p.2) ([], [])).2))).2.isEmpty
  · rw [if_pos he]
    exact h1
  · rw [if_neg he]
    rw [dictLookup_dictInsert_ne _ _ (by decide)]
    exact h1

/-- C2: for every metadata dict (duplicate-free keys) whose `hashtags`
field is the empty list, `_flatten_metadata` stores the empty string in
the `hashtags` field (whenever flattening succeeds at all), and
`_unflatten_metadata` of that flattened form restores the empty list `[]`
for `hashtags` — never the one-element list `[""]`. -/
theorem empty_hashtags_flatten_unflatten (m f : PyDict)
    (hnd : (dictKeys m).Nodup)
    (hhl : dictLookup m "hashtags" = some (PyVal.list []))
    (hf : flatten_metadata m = some f) :
    dictLookup f "hashtags" = some (PyVal.scalar (Scalar.s "")) ∧
    dictLookup (unflatten_metadata f) "hashtags" = some (PyVal.list []) := by
  have hfnd := flatten_metadata_nodup hf
  obtain ⟨l₁, l₂, heq, hg1⟩ := dictLookup_eq_some_decomp hhl
  subst heq
  have hg2 : "hashtags" ∉ dictKeys l₂ := by
    have hkeys : dictKeys (l₁ ++ ("hashtags", PyVal.list []) :: l₂)
        = dictKeys l₁ ++ "hashtags" :: dictKeys l₂ := by simp [dictKeys]
    rw [hkeys] at hnd
    have := (List.nodup_middle.mp hnd)
    rw [List.nodup_cons] at this
    intro hmem
    exact this.1 (List.mem_append.mpr (Or.inr hmem))
  unfold flatten_metadata at hf
  rw [List.foldlM_append] at hf
  cases h1 : List.foldlM (fun flat p => flattenStep flat p.1 p.2) [] l₁ with
  | none =>
    rw [h1] at hf
    simp at hf
  | some f₁ =>
    rw [h1] at hf
    rw [show ((some f₁ : Option PyDict) >>= fun init =>
      List.foldlM (fun flat p => flattenStep flat p.1 p.2) init
        (("hashtags", PyVal.list []) :: l₂)) =
      List.foldlM (fun flat p => flattenStep flat p.1 p.2) f₁
        (("hashtags", PyVal.list []) :: l₂) from rfl] at hf
    rw [List.foldlM_cons] at hf
    rw [show flattenStep f₁ "hashtags" (PyVal.list []) =
      some (dictInsert f₁ "hashtags" (PyVal.scalar (Scalar.s ""))) from rfl]
      at hf
    rw [show ((some (dictInsert f₁ "hashtags" (PyVal.scalar (Scalar.s ""))) :
      Option PyDict) >>= fun b' =>
      List.foldlM (fun flat p => flattenStep flat p.1 p.2) b' l₂) =
      List.foldlM (fun flat p => flattenStep flat p.1 p.2)
        (dictInsert f₁ "hashtags" (PyVal.scalar (Scalar.s ""))) l₂ from rfl]
      at hf
    have hpart1 : dictLookup f "hashtags" =
        some (PyVal.scalar (Scalar.s "")) := by
      rw [foldlM_flatten_lookup_preserved hg2 (by decide) hf]
      exact dictLookup_dictInsert_self _ _ _
    exact ⟨hpart1, unflatten_lookup_hashtags hfnd hpart1⟩

/-- Witness for C2 at the one-field metadata dict with empty hashtags. -/
theorem empty_hashtags_flatten_unflatten_witness :
    dictLookup [("hashtags", PyVal.list [])] "hashtags" =
      some (PyVal.list []) ∧
    flatten_metadata [("hashtags", PyVal.list [])] =
      some [("hashtags", PyVal.scalar (Scalar.s ""))] ∧
    dictLookup [("hashtags", PyVal.scalar (Scalar.s ""))] "hashtags" =
      some (PyVal.scalar (Scalar.s "")) ∧
    dictLookup (unflatten_metadata
      [("hashtags", PyVal.scalar (Scalar.s ""))]) "hashtags" =
      some (PyVal.list []) := by
  refine ⟨rfl, rfl, ?_⟩
  have := empty_hashtags_flatten_unflatten [("hashtags", PyVal.list [])]
    [("hashtags", PyVal.scalar (Scalar.s ""))] (by decide) rfl rfl
  exact ⟨this.1, this.2⟩

/-!
Python numeric/str rendering used by the prompt builders.  Floats are
modelled as rationals; their free-form rendering (`str(x)`) is a
best-effort decimal stand-in and no theorem depends on it.  The
fixed-precision format specs (`:.0f`, `:.2f`, `:+.1f`) use round-half-
to-even like Python, and `:,` inserts thousands separators.
-/

/-- Decimal digits of `num/den` (`0 ≤ num < den`), `none` when the
expansion does not terminate within `fuel` digits. -/
def qFracDigits : Nat → Nat → Nat → Option String
  | _, 0, _ => some ""
  | 0, _, _ => none
  | fuel + 1, num, den =>
    let num10 := num * 10
    (qFracDigits fuel (num10 % den) den).map
      (fun rest => toString (num10 / den) ++ rest)

/-- Best-effort decimal rendering of a rational standing in for a Python
float. -/
def pyFloatStr (q : ℚ) : String :=
  let sign := if q.num < 0 then "-" else ""
  match qFracDigits 17 (q.num.natAbs % q.den) q.den with
  | some "" => sign ++ toString (q.num.natAbs / q.den) ++ ".0"
  | some ds => sign ++ toString (q.num.natAbs / q.den) ++ "." ++ ds
  | none => toString q

/-- Round half to even, as Python float formatting does; computed on the
raw numerator and denominator (`fl` is the floor, `r` the non-negative
remainder, and `2r` is compared against the denominator). -/
def roundHalfEven (q : ℚ) : ℤ :=
  let d : ℤ := q.den
  let fl := q.num.fdiv d
  let r := q.num - fl * d
  if 2 * r < d then fl
  else if 2 * r > d then fl + 1
  else if fl % 2 = 0 then fl else fl + 1

/-- Python format spec `:.0f`. -/
def fmt0f (q : ℚ) : String := toString (roundHalfEven q)

/-- Python format spec `:.2f`. -/
def fmt2f (q : ℚ) : String :=
  let m := roundHalfEven (q * 100)
  let a := m.natAbs
  (if m < 0 then "-" else "") ++ toString (a / 100) ++ "." ++
    (if a % 100 < 10 then "0" else "") ++ toString (a % 100)

/-- Python format spec `:+.1f`. -/
def fmtPlus1f (q : ℚ) : String :=
  let m := roundHalfEven (q * 10)
  let a := m.natAbs
  (if m < 0 then "-" else "+") ++ toString (a / 10) ++ "." ++ toString (a % 10)

/-- Split a digit string into groups of three, starting from the least
significant end (input is the reversed digit list). -/
def chunk3 : List Char → List (List Char)
  | [] => []
  | [a] => [[a]]
  | [a, b] => [[a, b]]
  | a :: b :: c :: rest => [a, b, c] :: chunk3 rest

/-- Python format spec `:,` on an integer. -/
def intThousands (n : ℤ) : String :=
  let s := (toString n.natAbs).data
  (if n < 0 then "-" else "") ++
    String.mk (List.intercalate [','] ((chunk3 s.reverse).reverse.map
      List.reverse))

/-- Python format spec `:,` on a float (modelled on the rational). -/
def floatThousands (q : ℚ) : String :=
  let ipart : ℤ := (q.num.natAbs / q.den : ℕ)
  let frac :=
    match qFracDigits 17 (q.num.natAbs % q.den) q.den with
    | some "" => ".0"
    | some ds => "." ++ ds
    | none => ""
  (if q.num < 0 then "-" else "") ++ intThousands ipart ++ frac

/-- Python `format(value, ",")` as applied inside an f-string
(`f"{value:,}"`): succeeds on numbers, raises `ValueError` on strings
(in particular on the `"N/A"` default) and `TypeError` on containers. -/
def formatThousands : PyVal → Except String String
  | .scalar (.i n) => .ok (intThousands n)
  | .scalar (.f q) => .ok (floatThousands q)
  | .scalar (.b b) => .ok (if b then "1" else "0")
  | .scalar (.s _) => .error "Cannot specify ',' with 's'."
  | _ => .error "unsupported format string passed to the value"

/-- Python `repr` as used by `str()` on containers. -/
def pyRepr : PyVal → String
  | .scalar (.s v) => "\x27" ++ v ++ "\x27"
  | .scalar (.i n) => toString n
  | .scalar (.f q) => pyFloatStr q
  | .scalar (.b b) => if b then "True" else "False"
  | .list xs =>
    "[" ++ String.intercalate ", " (xs.attach.map (fun x => pyRepr x.1)) ++ "]"
  | .dict d =>
    "\x7b" ++ String.intercalate ", " (d.attach.map (fun p =>
      "\x27" ++ p.1.1 ++ "\x27: " ++ pyRepr p.1.2)) ++ "\x7d"
termination_by v => sizeOf v
decreasing_by
  · have h := List.sizeOf_lt_of_mem x.2
    simp only [PyVal.list.sizeOf_spec]
    omega
  · obtain ⟨⟨a, b⟩, hmem⟩ := p
    have h := List.sizeOf_lt_of_mem hmem
    simp only [Prod.mk.sizeOf_spec] at h
    simp only [PyVal.dict.sizeOf_spec]
    omega

/-- Python `str()` conversion, as interpolated by f-strings. -/
def pyStr : PyVal → String
  | .scalar (.s v) => v
  | .scalar (.i n) => toString n
  | .scalar (.f q) => pyFloatStr q
  | .scalar (.b b) => if b then "True" else "False"
  | .list xs => pyRepr (.list xs)
  | .dict d => pyRepr (.dict d)

/-!
Prompt assembly: `RAGPipeline.format_posts_for_prompt` and
`RAGPipeline.build_user_prompt` from `src/rag_pipeline.py`, and
`PromptManager.format_prompt_with_context` from
`src/utils/prompt_manager.py`.
-/

/-- Python whitespace test used by `str.strip()` / `str.split()`. -/
def isPySpace (c : Char) : Bool :=
  c = ' ' || c = '\n' || c = '\t' || c = '\x0d' || c = '\x0b' || c = '\x0c'

/-- Python `str.strip()`. -/
def pyStrip (s : String) : String :=
  String.mk (((s.data.dropWhile isPySpace).reverse.dropWhile
    isPySpace).reverse)

/-- Python `d.get(k, {})` followed by attribute access on the result:
returns the dict, or fails like Python's `AttributeError` when the
present value is not a dict. -/
def asDictE (v : Option PyVal) : Except String PyDict :=
  match v with
  | none => .ok []
  | some (PyVal.dict dd) => .ok dd
  | some _ => .error "AttributeError: object has no attribute get"

/-- Python `", ".join(x)`: joins a list of strings, iterates a string
character by character, raises `TypeError` otherwise. -/
def joinCommaSpace (v : PyVal) : Except String String :=
  match v with
  | PyVal.list xs =>
    match xs.mapM (fun x => match x with
      | PyVal.scalar (Scalar.s t) => some t
      | _ => none) with
    | some tags => .ok (String.intercalate ", " tags)
    | none => .error "TypeError: sequence item: expected str instance"
  | PyVal.scalar (Scalar.s t) =>
    .ok (String.intercalate ", " (t.data.map (fun c => String.mk [c])))
  | _ => .error "TypeError: can only join an iterable"

/-- One block of `RAGPipeline.format_posts_for_prompt` (lines 144-154):
the stripped per-post template for the `i`-th retrieved record. -/
def formatPostBlock (i : Nat) (post : PyDict) : Except String String := do
  let metadata ← asDictE (dictLookup post "metadata")
  let metrics ← asDictE (dictLookup metadata "metrics")
  let hashtagsStr ← joinCommaSpace
    (dictGetD metadata "hashtags" (PyVal.list []))
  .ok (pyStrip ("\nPOST " ++ toString i ++ ":\n- Caption: " ++
    pyStr (dictGetD metadata "caption" (PyVal.scalar (Scalar.s "N/A"))) ++
    "\n- Type: " ++
    pyStr (dictGetD metadata "media_type" (PyVal.scalar (Scalar.s "N/A"))) ++
    "\n- Date: " ++
    pyStr (dictGetD metadata "timestamp" (PyVal.scalar (Scalar.s "N/A"))) ++
    "\n- Engagement: " ++
    pyStr (dictGetD metrics "engagement_rate" (PyVal.scalar (Scalar.i 0))) ++
    "%\n- Likes: " ++
    pyStr (dictGetD metrics "likes" (PyVal.scalar (Scalar.i 0))) ++
    " | Commentaires: " ++
    pyStr (dictGetD metrics "comments" (PyVal.scalar (Scalar.i 0))) ++
    " | Sauvegardes: " ++
    pyStr (dictGetD metrics "saves" (PyVal.scalar (Scalar.i 0))) ++
    "\n- Portée: " ++
    pyStr (dictGetD metrics "reach" (PyVal.scalar (Scalar.i 0))) ++
    " | Impressions: " ++
    pyStr (dictGetD metrics "impressions" (PyVal.scalar (Scalar.i 0))) ++
    "\n- Hashtags: " ++ hashtagsStr ++ "\n"))

/-- `RAGPipeline.format_posts_for_prompt` (lines 126-156): the empty
retrieval list renders the fixed sentinel text, otherwise one block per
post joined by blank lines. -/
def format_posts_for_prompt (posts : List PyDict) : Except String String :=
  if posts.isEmpty then .ok "Aucun post pertinent trouvé."
  else do
    let blocks ← (List.enumFrom 1 posts).mapM
      (fun ip => formatPostBlock ip.1 ip.2)
    .ok (String.intercalate "\n\n" blocks)

/-- `RAGPipeline.build_user_prompt` (lines 187-217).  The f-string
formats `profile.get("followers", "N/A")` with the `:,` spec, which
raises when the default string is used; errors are modelled by
`Except.error`, in Python evaluation order (the followers field is
interpolated before the posts section is rendered). -/
def build_user_prompt (influencer_profile : Option PyDict)
    (question : String) (relevant_posts : List PyDict) :
    Except String String := do
  let profile := influencer_profile.getD []
  let followersStr ← formatThousands
    (dictGetD profile "followers" (PyVal.scalar (Scalar.s "N/A")))
  let postsStr ← format_posts_for_prompt relevant_posts
  .ok ("PROFIL INFLUENCEUR:\n- Username: @" ++
    pyStr (dictGetD profile "username" (PyVal.scalar (Scalar.s "N/A"))) ++
    "\n- Followers: " ++ followersStr ++
    "\n- Taux d\x27engagement moyen: " ++
    pyStr (dictGetD profile "avg_engagement_rate"
      (PyVal.scalar (Scalar.s "N/A"))) ++
    "%\n- Niche: " ++
    pyStr (dictGetD profile "niche" (PyVal.scalar (Scalar.s "N/A"))) ++
    "\n- Fréquence de publication: " ++
    pyStr (dictGetD profile "posting_frequency"
      (PyVal.scalar (Scalar.s "N/A"))) ++
    "\n\nPOSTS PERTINENTS:\n" ++ postsStr ++
    "\n\nQUESTION:\n" ++ question ++
    "\n\nRéponds de manière personnalisée en te basant sur les données ci-dessus.")

/-- Python number coercion for `sum(...)`: ints, floats and bools are
numbers; anything else raises `TypeError`. -/
def pyNumE : PyVal → Except String ℚ
  | .scalar (.i n) => .ok n
  | .scalar (.f q) => .ok q
  | .scalar (.b b) => .ok (if b then 1 else 0)
  | _ => .error "TypeError: unsupported operand type for +"

/-- `sum(p.get(fld, 0) for p in posts)`. -/
def sumField (posts : List PyDict) (fld : String) : Except String ℚ :=
  posts.foldlM (fun acc p =>
    (pyNumE (dictGetD p fld (PyVal.scalar (Scalar.i 0)))).map
      (fun x => acc + x)) 0

/-- Python `format(v, ".2f")`: numbers render with two decimals, strings
raise `ValueError`. -/
def fmt2fE : PyVal → Except String String
  | .scalar (.i n) => .ok (fmt2f n)
  | .scalar (.f q) => .ok (fmt2f q)
  | .scalar (.b b) => .ok (fmt2f (if b then 1 else 0))
  | _ => .error "ValueError: Unknown format code f"

/-- The context dict accepted by
`PromptManager.format_prompt_with_context`: each optional component
models the corresponding `"key" in context` membership test. -/
structure PromptContext where
  user_data : Option PyDict
  metrics : Option PyDict
  posts_data : Option (List PyDict)
  question : Option String

/-- The username line of the creator-summary section. -/
def usernameLine (ud : PyDict) : String :=
  match dictLookup ud "username" with
  | some v => "- Username: @" ++ pyStr v ++ "\n"
  | none => ""

def followersLine (ud : PyDict) : Except String String :=
  match dictLookup ud "followers" with
  | some v => (formatThousands v).map (fun t => "- Followers: " ++ t ++ "\n")
  | none => Except.ok ""

def engagementLine (ud : PyDict) : Except String String :=
  match dictLookup ud "engagement_rate" with
  | some v => (fmt2fE v).map
      (fun t => "- Taux d\x27engagement moyen: " ++ t ++ "%\n")
  | none => Except.ok ""

def userDataSection (ud : PyDict) : Except String String := do
  let fline ← followersLine ud
  let eline ← engagementLine ud
  .ok ("## Données du créateur\n" ++ usernameLine ud ++ fline ++ eline)

/-- `PromptManager.format_prompt_with_context` (lines 112-164): loads
the base prompt (passed here as a parameter, since it comes from a
template file) and appends the conditionally-built context section; note
that the aggregate likes/comments means read `p.get("likes", 0)` /
`p.get("comments", 0)` at the TOP level of each posts_data record. -/
def format_prompt_with_context (base_prompt : String)
    (context : PromptContext) : Except String String := do
  let s0 := "\n\n# CONTEXTE ACTUEL\n\n"
  let userSection ← match context.user_data with
    | none => Except.ok ""
    | some ud => userDataSection ud
  let metricsSection := match context.metrics with
    | none => ""
    | some ms =>
      "\n## Métriques récentes\n" ++
        String.join (ms.map (fun p =>
          "- " ++ p.1 ++ ": " ++ pyStr p.2 ++ "\n"))
  let postsSection ← match context.posts_data with
    | none => Except.ok ""
    | some posts => do
      let head := "\n## Données de contenu\n- Nombre de posts analysés: " ++
        toString posts.length ++ "\n"
      if posts.isEmpty then Except.ok head
      else do
        let sl ← sumField posts "likes"
        let sc ← sumField posts "comments"
        let avgLikes := sl / posts.length
        let avgComments := sc / posts.length
        Except.ok (head ++ "- Moyenne de likes: " ++ fmt0f avgLikes ++
          "\n- Moyenne de commentaires: " ++ fmt0f avgComments ++ "\n")
  let questionSection := match context.question with
    | none => ""
    | some q => "\n## Question de l\x27utilisateur\n" ++ q ++ "\n"
  .ok (base_prompt ++ s0 ++ userSection ++ metricsSection ++
    postsSection ++ questionSection)

/-- C4 counterexample: `format_posts_for_prompt` applied to the empty
list returns the fixed French sentinel `"Aucun post pertinent trouvé."`,
not the literal English string `"no relevant post found"` the claim
names. -/
theorem format_posts_sentinel_not_english :
    format_posts_for_prompt [] ≠
      Except.ok "no relevant post found" := by
  intro h
  rw [show format_posts_for_prompt [] =
    Except.ok "Aucun post pertinent trouvé." from rfl] at h
  simp only [Except.ok.injEq] at h
  exact absurd h (by decide)

/-- C4 (amended): when retrieval returns zero records,
`format_posts_for_prompt` renders the fixed non-empty sentinel text
`"Aucun post pertinent trouvé."` (French for "no relevant post found"),
never an empty block. -/
theorem format_posts_empty_sentinel :
    format_posts_for_prompt [] =
      Except.ok "Aucun post pertinent trouvé." ∧
    "Aucun post pertinent trouvé." ≠ "" :=
  ⟨rfl, by decide⟩

/-- C10: `build_user_prompt` interpolates
`profile.get("followers", "N/A")` with the thousands-separator format
spec, which is not defined on the string default: when the profile lacks
`followers` (or no profile is loaded, so the empty dict is used), the
call raises the formatting error instead of producing a prompt with an
`N/A` placeholder; it succeeds when `followers` is present as an
integer. -/
theorem build_user_prompt_followers (influencer_profile : Option PyDict)
    (question : String) (relevant_posts : List PyDict) :
    (dictLookup (influencer_profile.getD []) "followers" = none →
      build_user_prompt influencer_profile question relevant_posts =
        Except.error "Cannot specify ',' with 's'.") ∧
    (∀ n : ℤ, dictLookup (influencer_profile.getD []) "followers" =
        some (PyVal.scalar (Scalar.i n)) →
      (∃ fp, format_posts_for_prompt relevant_posts = Except.ok fp) →
      ∃ s, build_user_prompt influencer_profile question relevant_posts =
        Except.ok s) := by
  constructor
  · intro h
    have hd : dictGetD (influencer_profile.getD []) "followers"
        (PyVal.scalar (Scalar.s "N/A")) = PyVal.scalar (Scalar.s "N/A") := by
      rw [dictGetD, h]
      rfl
    simp only [build_user_prompt]
    rw [hd]
    rfl
  · intro n h hfp
    obtain ⟨fp, hfp⟩ := hfp
    have hd : dictGetD (influencer_profile.getD []) "followers"
        (PyVal.scalar (Scalar.s "N/A")) = PyVal.scalar (Scalar.i n) := by
      rw [dictGetD, h]
      rfl
    simp only [build_user_prompt]
    rw [hd, show formatThousands (PyVal.scalar (Scalar.i n)) =
      Except.ok (intThousands n) from rfl, hfp]
    exact ⟨_, rfl⟩

/-- Witness for C10: a profile lacking `followers` raises; a profile
with integer `followers` succeeds. -/
theorem build_user_prompt_followers_witness :
    dictLookup ((none : Option PyDict).getD []) "followers" = none ∧
    build_user_prompt none "Q" [] =
      Except.error "Cannot specify ',' with 's'." ∧
    (∃ s, build_user_prompt
      (some [("followers", PyVal.scalar (Scalar.i 12345))]) "Q" [] =
        Except.ok s) :=
  ⟨rfl, (build_user_prompt_followers none "Q" []).1 rfl,
    (build_user_prompt_followers
      (some [("followers", PyVal.scalar (Scalar.i 12345))]) "Q" []).2
      12345 rfl ⟨_, rfl⟩⟩

instance : DecidableEq (Except String String) := fun a b =>
  match a, b with
  | .ok x, .ok y =>
    if h : x = y then isTrue (by rw [h])
    else isFalse (by intro hh; cases hh; exact h rfl)
  | .error x, .error y =>
    if h : x = y then isTrue (by rw [h])
    else isFalse (by intro hh; cases hh; exact h rfl)
  | .ok _, .error _ => isFalse (by intro hh; cases hh)
  | .error _, .ok _ => isFalse (by intro hh; cases hh)

/-- The metric value of a RETRIEVAL-SHAPED record: retrieval results
from `VectorStore.query` carry their metrics nested under
`metadata.metrics`, not at the top level. -/
def retrievedMetricNum (post : PyDict) (fld : String) : ℚ :=
  match dictLookup post "metadata" with
  | some (PyVal.dict md) =>
    match dictLookup md "metrics" with
    | some (PyVal.dict ms) =>
      match dictLookup ms fld with
      | some (PyVal.scalar (Scalar.i n)) => n
      | some (PyVal.scalar (Scalar.f q)) => q
      | _ => 0
    | _ => 0
  | _ => 0

/-- Arithmetic mean of a nested metric over retrieved records. -/
def retrievedMean (posts : List PyDict) (fld : String) : ℚ :=
  (posts.map (fun p => retrievedMetricNum p fld)).sum / posts.length

/-- A retrieval-shaped record as produced by `VectorStore.query`. -/
def retrievalRecord (ident : String) (likes comments : Int) : PyDict :=
  [("id", PyVal.scalar (Scalar.s ident)),
   ("distance", PyVal.scalar (Scalar.f (1/10))),
   ("text", PyVal.scalar (Scalar.s "t")),
   ("metadata", PyVal.dict
     [("metrics", PyVal.dict
       [("likes", PyVal.scalar (Scalar.i likes)),
        ("comments", PyVal.scalar (Scalar.i comments))])])]

/-- A posts_data/question context over two retrieved records whose
nested likes are 10 and 20 (mean 15) and comments 4 and 6 (mean 5). -/
def c3Context : PromptContext :=
  { user_data := none,
    metrics := none,
    posts_data := some [retrievalRecord "p1" 10 4, retrievalRecord "p2" 20 6],
    question := some "Q?" }

theorem except_bind_ok {α β : Type} (a : α)
    (f : α → Except String β) : (Except.ok a >>= f) = f a := rfl

set_option maxRecDepth 10000 in
/-- C3: `format_prompt_with_context` computes the likes/comments means
from `p.get("likes", 0)` / `p.get("comments", 0)` at the TOP level of
each posts_data record, but retrieval records nest those values under
`metadata.metrics`.  On records whose nested likes are 10 and 20 (true
mean 15) the rendered system prompt therefore contains
`Moyenne de likes: 0`, a constant independent of the retrieved records,
and not the mean 15 the claim requires. -/
theorem prompt_context_mean_likes_bug :
    format_prompt_with_context "BASE" c3Context = Except.ok
      ("BASE\n\n# CONTEXTE ACTUEL\n\n" ++
       "\n## Données de contenu\n- Nombre de posts analysés: 2\n" ++
       "- Moyenne de likes: 0\n- Moyenne de commentaires: 0\n" ++
       "\n## Question de l\x27utilisateur\nQ?\n") ∧
    retrievedMean [retrievalRecord "p1" 10 4, retrievalRecord "p2" 20 6]
      "likes" = 15 ∧
    retrievedMean [retrievalRecord "p1" 10 4, retrievalRecord "p2" 20 6]
      "comments" = 5 ∧
    ¬ ("Moyenne de likes: 15").data <:+:
      ("BASE\n\n# CONTEXTE ACTUEL\n\n" ++
       "\n## Données de contenu\n- Nombre de posts analysés: 2\n" ++
       "- Moyenne de likes: 0\n- Moyenne de commentaires: 0\n" ++
       "\n## Question de l\x27utilisateur\nQ?\n").data := by
  have hget : ∀ fld : String, fld = "likes" ∨ fld = "comments" →
      ∀ ident likes comments,
      dictGetD (retrievalRecord ident likes comments) fld
        (PyVal.scalar (Scalar.i 0)) = PyVal.scalar (Scalar.i 0) := by
    rintro fld (rfl | rfl) ident likes comments <;> rfl
  have hsl : sumField [retrievalRecord "p1" 10 4, retrievalRecord "p2" 20 6]
      "likes" = Except.ok 0 := by
    simp only [sumField, List.foldlM_cons, List.foldlM_nil,
      hget "likes" (Or.inl rfl), pyNumE]
    norm_num [Except.map]
    rfl
  have hsc : sumField [retrievalRecord "p1" 10 4, retrievalRecord "p2" 20 6]
      "comments" = Except.ok 0 := by
    simp only [sumField, List.foldlM_cons, List.foldlM_nil,
      hget "comments" (Or.inr rfl), pyNumE]
    norm_num [Except.map]
    rfl
  have hf0 : fmt0f ((0 : ℚ) / (([retrievalRecord "p1" 10 4,
      retrievalRecord "p2" 20 6] : List PyDict).length : ℚ)) = "0" := by
    norm_num [fmt0f, roundHalfEven]
    rfl
  have hnum : ∀ (ident : String) (likes comments : ℤ),
      retrievedMetricNum (retrievalRecord ident likes comments) "likes" =
        (likes : ℚ) ∧
      retrievedMetricNum (retrievalRecord ident likes comments) "comments" =
        (comments : ℚ) := fun i l c => ⟨rfl, rfl⟩
  have hm : retrievedMean [retrievalRecord "p1" 10 4,
      retrievalRecord "p2" 20 6] "likes" = 15 ∧
      retrievedMean [retrievalRecord "p1" 10 4,
        retrievalRecord "p2" 20 6] "comments" = 5 := by
    constructor
    · simp only [retrievedMean, List.map_cons, List.map_nil,
        (hnum "p1" 10 4).1, (hnum "p2" 20 6).1, List.sum_cons,
        List.sum_nil, List.length_cons, List.length_nil]
      norm_num
    · simp only [retrievedMean, List.map_cons, List.map_nil,
        (hnum "p1" 10 4).2, (hnum "p2" 20 6).2, List.sum_cons,
        List.sum_nil, List.length_cons, List.length_nil]
      norm_num
  refine ⟨?_, hm.1, hm.2, by decide⟩
  simp only [format_prompt_with_context, c3Context]
  rw [show ([retrievalRecord "p1" 10 4, retrievalRecord "p2" 20 6] :
    List PyDict).isEmpty = false from rfl]
  simp only [Bool.false_eq_true, if_false, hsl, hsc, except_bind_ok]
  rw [hf0]
  rfl

/-!
Agent modes: the `AgentMode` enum of `src/agent_modes.py` and the
dispatch-boundary mode resolution of `api.py` `chat` (lines 230-237):
`mode_mapping.get(request.mode.value, AgentMode.CONTENT_ANALYST)`.
-/

inductive AgentMode where
  | contentAnalyst
  | monetization
  | strategy
  | audience
  | voiceImpact
deriving DecidableEq

/-- The `.value` string of each `AgentMode` member. -/
def agentModeValue : AgentMode → String
  | .contentAnalyst => "content_analyst"
  | .monetization => "monetization"
  | .strategy => "strategy"
  | .audience => "audience"
  | .voiceImpact => "voice_impact"

/-- The four mode strings exposed by the chat dispatch boundary
(`mode_mapping` in `api.py`, lines 230-235). -/
def chatModeStrings : List String :=
  ["content_analyst", "monetization", "strategy", "audience"]

/-- Mode resolution at the dispatch boundary:
`mode_mapping.get(s, AgentMode.CONTENT_ANALYST)`. -/
def resolveMode (s : String) : AgentMode :=
  if s = "content_analyst" then .contentAnalyst
  else if s = "monetization" then .monetization
  else if s = "strategy" then .strategy
  else if s = "audience" then .audience
  else .contentAnalyst

/-- C5 counterexample: `"voice_impact"` is a recognized `AgentMode`
value (`AgentMode.VOICE_IMPACT.value`), yet the dispatch-boundary
resolution maps it to the default `CONTENT_ANALYST`, not to
`AgentMode.VOICE_IMPACT` — so "every recognized mode string yields the
corresponding AgentMode" fails as stated. -/
theorem resolve_mode_voice_impact_counterexample :
    agentModeValue AgentMode.voiceImpact = "voice_impact" ∧
    resolveMode "voice_impact" = AgentMode.contentAnalyst ∧
    AgentMode.contentAnalyst ≠ AgentMode.voiceImpact :=
  ⟨rfl, rfl, by decide⟩

/-- C5 (amended): mode resolution is a total function (it never raises);
each of the four mode strings of the dispatch mapping resolves to its
`AgentMode`, and every other string — including the fifth `AgentMode`
value `"voice_impact"`, which the chat mapping does not expose — falls
back to the default `content_analyst`. -/
theorem resolve_mode_fallback (s : String) :
    (s = "content_analyst" → resolveMode s = AgentMode.contentAnalyst) ∧
    (s = "monetization" → resolveMode s = AgentMode.monetization) ∧
    (s = "strategy" → resolveMode s = AgentMode.strategy) ∧
    (s = "audience" → resolveMode s = AgentMode.audience) ∧
    (s ∉ chatModeStrings → resolveMode s = AgentMode.contentAnalyst) := by
  refine ⟨fun h => by subst h; rfl, fun h => by subst h; rfl,
    fun h => by subst h; rfl, fun h => by subst h; rfl, fun h => ?_⟩
  simp only [chatModeStrings, List.mem_cons, List.mem_singleton,
    List.not_mem_nil, not_or] at h
  unfold resolveMode
  rw [if_neg h.1, if_neg h.2.1, if_neg h.2.2.1, if_neg h.2.2.2.1]

/-- Witness for C5: the spec's probe string resolves to the default. -/
theorem resolve_mode_fallback_witness :
    ("not_a_real_mode" : String) ∉ chatModeStrings ∧
    resolveMode "not_a_real_mode" = AgentMode.contentAnalyst :=
  ⟨by decide, (resolve_mode_fallback "not_a_real_mode").2.2.2.2 (by decide)⟩

/-!
Streaming: the SSE-processing loop of
`FeatherlessClient.generate_response_stream` (`src/llm_client.py`,
lines 220-270), the non-streaming text extraction of
`generate_response` (lines 152-155), and the consuming loop of
`InstagramCoachAgent.ask` (`src/agent.py`, lines 139-143).
-/

/-- One parsed streaming choice: the optional `delta.content` text and
the optional `finish_reason`. -/
structure StreamChoice where
  deltaContent : Option String
  finishReason : Option String

/-- One parsed streaming chunk (`choices` array). -/
structure StreamChunk where
  choices : List StreamChoice

/-- One line of the SSE response after the `data: ` prefix is removed:
a parsed JSON chunk, the `[DONE]` marker, or a line the JSON decoder
rejects (skipped by the loop). -/
inductive StreamLine where
  | data (chunk : StreamChunk)
  | done
  | malformed

/-- The streaming loop: stop at `[DONE]`, skip malformed lines, yield
each non-empty `delta.content` of the first choice, and stop after a
chunk whose choice carries a `finish_reason`. -/
def processStreamLines : List StreamLine → List String
  | [] => []
  | StreamLine.done :: _ => []
  | StreamLine.malformed :: rest => processStreamLines rest
  | StreamLine.data c :: rest =>
    match c.choices with
    | [] => processStreamLines rest
    | ch :: _ =>
      let yielded := match ch.deltaContent with
        | some s => if s = "" then [] else [s]
        | none => []
      if ch.finishReason = none then yielded ++ processStreamLines rest
      else yielded

/-- The consuming loop of `InstagramCoachAgent.ask`:
`response = ""` then `response += chunk` per fragment. -/
def consumeStream (frags : List String) : String :=
  frags.foldl (fun acc c => acc ++ c) ""

/-- A non-streaming chat response: the `message.content` of each choice. -/
structure ChatResponse where
  choices : List String

/-- The text extraction of `generate_response`: the first choice's
`message.content`, or the `RuntimeError` on an empty `choices` array. -/
def generate_response_extract (r : ChatResponse) : Except String String :=
  match r.choices with
  | [] => .error "Unexpected API response format"
  | c :: _ => .ok c

/-- The SSE stream a completion with the given fragments produces: one
data line per fragment, a final chunk carrying the finish reason, and
the `[DONE]` marker. -/
def encodeStream (frags : List String) : List StreamLine :=
  frags.map (fun f => StreamLine.data ⟨[⟨some f, none⟩]⟩) ++
    [StreamLine.data ⟨[⟨none, some "stop"⟩]⟩, StreamLine.done]

theorem processStreamLines_encodeStream (frags : List String) :
    processStreamLines (encodeStream frags) =
      frags.filter (fun s => !(s == "")) := by
  induction frags with
  | nil => rfl
  | cons f fs ih =>
    show processStreamLines (StreamLine.data ⟨[⟨some f, none⟩]⟩ ::
      encodeStream fs) = _
    rw [processStreamLines]
    simp only [if_pos rfl, if_true]
    by_cases hf : f = ""
    · subst hf
      simpa using ih
    · rw [if_neg hf]
      rw [List.filter_cons_of_pos (by simpa using hf)]
      simpa using ih

theorem consumeStream_filter_empty (l : List String) :
    consumeStream (l.filter (fun s => !(s == ""))) = consumeStream l := by
  unfold consumeStream
  suffices h : ∀ s : String,
      (l.filter (fun a => !(a == ""))).foldl (fun acc c => acc ++ c) s =
        l.foldl (fun acc c => acc ++ c) s from h ""
  induction l with
  | nil => intro s; rfl
  | cons x l ih =>
    intro s
    by_cases hx : x = ""
    · subst hx
      rw [List.filter_cons_of_neg (by simp), List.foldl_cons,
        String.append_empty]
      exact ih s
    · rw [List.filter_cons_of_pos (by simpa using hx), List.foldl_cons,
        List.foldl_cons]
      exact ih (s ++ x)

/-- C7: consuming the streaming result fully and concatenating the
fragments in order equals the full text the non-streaming path returns
for the same underlying completion. -/
theorem stream_concat_eq_nonstream (frags : List String) (full : String)
    (hfull : full = frags.foldl (fun acc c => acc ++ c) "") :
    consumeStream (processStreamLines (encodeStream frags)) = full ∧
    generate_response_extract ⟨[full]⟩ = Except.ok full := by
  refine ⟨?_, rfl⟩
  rw [processStreamLines_encodeStream, consumeStream_filter_empty, hfull]
  rfl

/-- Witness for C7 at the spec's fragments: `["Hello", " ", "world"]`
concatenates to `"Hello world"` on both paths. -/
theorem stream_concat_eq_nonstream_witness :
    ("Hello world" : String) =
      (["Hello", " ", "world"] : List String).foldl
        (fun acc c => acc ++ c) "" ∧
    consumeStream (processStreamLines
      (encodeStream ["Hello", " ", "world"])) = "Hello world" ∧
    generate_response_extract ⟨["Hello world"]⟩ = Except.ok "Hello world" :=
  ⟨rfl, (stream_concat_eq_nonstream ["Hello", " ", "world"]
      "Hello world" rfl).1,
    (stream_concat_eq_nonstream ["Hello", " ", "world"]
      "Hello world" rfl).2⟩

/-!
Voice-impact agent (`src/voice_impact_agent_google_api.py`): the store
query `VectorStore.get_all` (lines 170-192), `get_latest_post` (lines
70-95), `calculate_impact_metrics` (lines 97-179), `generate_voice_summary`
(lines 181-253) and `_clean_text_for_speech` (lines 452-481).
-/

/-- One stored record of the vector store collection: id, document text
and the flattened metadata ChromaDB holds. -/
structure VSEntry where
  id : String
  document : String
  metadata : PyDict

/-- The `\x7b"ids", "documents", "metadatas"\x7d` dictionary
`VectorStore.get_all` returns. -/
structure GetAllResult where
  ids : List String
  documents : List String
  metadatas : List PyDict

/-- `VectorStore.get_all`: on a non-empty collection, the ids, documents
and un-flattened metadata of every record; otherwise the three empty
lists. -/
def vectorStoreGetAll (entries : List VSEntry) : GetAllResult :=
  if entries.isEmpty then ⟨[], [], []⟩
  else
    ⟨entries.map VSEntry.id, entries.map VSEntry.document,
      entries.map (fun e => unflatten_metadata e.metadata)⟩

/-- The sort key of `get_latest_post`: `p.get("timestamp", "")`
(a string in every stored record). -/
def timestampKey (p : PyDict) : String :=
  match dictGetD p "timestamp" (PyVal.scalar (Scalar.s "")) with
  | PyVal.scalar (Scalar.s t) => t
  | _ => ""

/-- `VoiceImpactAgent.get_latest_post`: `None` when the store holds no
metadata records, otherwise the head of the records sorted by timestamp,
most recent first (`sorted(..., reverse=True)` is a stable descending
sort). -/
def get_latest_post (entries : List VSEntry) : Option PyDict :=
  let all_posts := (vectorStoreGetAll entries).metadatas
  if all_posts.isEmpty then none
  else (all_posts.mergeSort
    (fun a b => decide (timestampKey b ≤ timestampKey a))).head?

/-- Python `==` on the scalar values that appear in metadata: numeric
values compare across `int`/`float`/`bool`. -/
def scalarEq : Scalar → Scalar → Bool
  | .s a, .s b => a == b
  | .i a, .i b => a == b
  | .f a, .f b => a == b
  | .b a, .b b => a == b
  | .i a, .f b => ((a : ℚ)) == b
  | .f a, .i b => a == ((b : ℚ))
  | .b a, .i b => (if a then (1 : Int) else 0) == b
  | .i a, .b b => a == (if b then (1 : Int) else 0)
  | .b a, .f b => (if a then (1 : ℚ) else 0) == b
  | .f a, .b b => a == (if b then (1 : ℚ) else 0)
  | _, _ => false

/-- Python `==` on metadata values: structural equality on lists and
dictionaries, `scalarEq` on scalars. -/
def pyValBeq : PyVal → PyVal → Bool
  | .scalar x, .scalar y => scalarEq x y
  | .list xs, .list ys =>
    xs.length == ys.length &&
      (xs.zip ys).attach.all (fun p => pyValBeq p.1.1 p.1.2)
  | .dict xs, .dict ys =>
    xs.length == ys.length &&
      (xs.zip ys).attach.all (fun p =>
        p.1.1.1 == p.1.2.1 && pyValBeq p.1.1.2 p.1.2.2)
  | _, _ => false
termination_by a => sizeOf a
decreasing_by
  · obtain ⟨⟨a, b⟩, hmem⟩ := p
    have h := List.sizeOf_lt_of_mem (List.of_mem_zip hmem).1
    simp only [PyVal.list.sizeOf_spec]
    omega
  · obtain ⟨⟨⟨k₁, v₁⟩, k₂, v₂⟩, hmem⟩ := p
    have h := List.sizeOf_lt_of_mem (List.of_mem_zip hmem).1
    simp only [Prod.mk.sizeOf_spec] at h
    simp only [PyVal.dict.sizeOf_spec]
    omega

/-- Python `==` on `p.get("id")` results (`None == None` is `True`). -/
def optPyValBeq : Option PyVal → Option PyVal → Bool
  | none, none => true
  | some a, some b => pyValBeq a b
  | _, _ => false

/-- `post.get("metrics", \x7b\x7d)` as a dictionary (the agent's posts
store their metrics as a nested dictionary). -/
def metricsOf (post : PyDict) : PyDict :=
  match dictGetD post "metrics" (PyVal.dict []) with
  | PyVal.dict ms => ms
  | _ => []

/-- The numeric value of a metadata field: the agent's metric fields
hold numbers (a non-numeric value would raise `TypeError` in the Python
arithmetic before any division and is outside this model). -/
def pyNumD : PyVal → ℚ
  | .scalar (.i n) => (n : ℚ)
  | .scalar (.f q) => q
  | .scalar (.b b) => if b then 1 else 0
  | _ => 0

/-- `d.get(k, 0)` read as a number. -/
def metricNum (d : PyDict) (k : String) : ℚ :=
  pyNumD (dictGetD d k (PyVal.scalar (Scalar.i 0)))

/-- `other_posts` of `calculate_impact_metrics` (line 126): every stored
record whose `id` differs from the analysed post's. -/
def otherPosts (entries : List VSEntry) (post : PyDict) : List PyDict :=
  ((vectorStoreGetAll entries).metadatas).filter
    (fun p => !(optPyValBeq (dictLookup p "id") (dictLookup post "id")))

/-- The dictionary `calculate_impact_metrics` returns (all its values
are numbers). -/
structure ImpactMetrics where
  likes : ℚ
  comments : ℚ
  shares : ℚ
  saves : ℚ
  reach : ℚ
  impressions : ℚ
  engagement_rate : ℚ
  avg_engagement : ℚ
  avg_likes : ℚ
  avg_comments : ℚ
  avg_saves : ℚ
  engagement_diff_pct : ℚ
  virality_ratio : ℚ
  active_engagement_pct : ℚ

/-- The mean of a nested metric over the other posts (raises
`ZeroDivisionError` when `other_posts` is empty, which the caller's
`len(all_posts) > 1` branch does not rule out). -/
def otherMean (others : List PyDict) (fld : String) : ℚ :=
  (others.map (fun p => metricNum (metricsOf p) fld)).sum / others.length

/-- `VoiceImpactAgent.calculate_impact_metrics`: raw metrics, account
averages (over the other posts when more than one record is stored),
`engagement_diff_pct`, `virality_ratio` and `active_engagement_pct`,
each division guarded by a positivity test — except the average over
`other_posts`, which raises `ZeroDivisionError` when every stored
record shares the analysed post's id. -/
def calculate_impact_metrics (entries : List VSEntry) (profile post : PyDict) :
    Except String ImpactMetrics := do
  let metrics := metricsOf post
  let likes := metricNum metrics "likes"
  let comments := metricNum metrics "comments"
  let shares := metricNum metrics "shares"
  let saves := metricNum metrics "saves"
  let reach := metricNum metrics "reach"
  let impressions := metricNum metrics "impressions"
  let engagement_rate := metricNum metrics "engagement_rate"
  let all_posts := (vectorStoreGetAll entries).metadatas
  let avgs ←
    if 1 < all_posts.length then
      let other_posts := otherPosts entries post
      if other_posts.length = 0 then
        Except.error "ZeroDivisionError: division by zero"
      else
        Except.ok (otherMean other_posts "engagement_rate",
          otherMean other_posts "likes", otherMean other_posts "comments",
          otherMean other_posts "saves")
    else
      Except.ok (engagement_rate, likes, comments, saves)
  let engagement_diff_pct :=
    if 0 < avgs.1 then (engagement_rate - avgs.1) / avgs.1 * 100 else 0
  let followers := pyNumD (dictGetD profile "followers" (PyVal.scalar (Scalar.i 1)))
  let virality_ratio := if 0 < followers then reach / followers * 100 else 0
  let total_interactions := likes + comments + shares + saves
  let active_engagement_pct :=
    if 0 < total_interactions then
      (comments + shares + saves) / total_interactions * 100
    else 0
  Except.ok
    { likes := likes, comments := comments, shares := shares,
      saves := saves, reach := reach, impressions := impressions,
      engagement_rate := engagement_rate, avg_engagement := avgs.1,
      avg_likes := avgs.2.1, avg_comments := avgs.2.2.1,
      avg_saves := avgs.2.2.2, engagement_diff_pct := engagement_diff_pct,
      virality_ratio := virality_ratio,
      active_engagement_pct := active_engagement_pct }

/-- Python `text.split()` with no argument: split on whitespace runs,
discarding empty pieces. -/
def splitWsAux : List Char → List Char → List (List Char)
  | [], acc => if acc.isEmpty then [] else [acc]
  | c :: rest, acc =>
    if isPySpace c then
      if acc.isEmpty then splitWsAux rest []
      else acc :: splitWsAux rest []
    else splitWsAux rest (acc ++ [c])

def pySplitWs (t : String) : List String :=
  (splitWsAux t.data []).map String.mk

/-- `VoiceImpactAgent._clean_text_for_speech`: strip markdown markers,
spell out `%`, drop bullet markers, collapse whitespace runs and strip. -/
def clean_text_for_speech (text : String) : String :=
  let c := text
  let c := pyReplace (pyReplace (pyReplace c "**" "") "__" "") "*" ""
  let c := pyReplace (pyReplace (pyReplace c "# " "") "## " "") "### " ""
  let c := pyReplace c "%" " pourcent"
  let c := pyReplace (pyReplace c "- " "") "• " ""
  pyStrip (pyJoin ' ' (pySplitWs c))

/-- `VoiceImpactAgent.generate_voice_summary`: with no stored post
(`get_latest_post` returns `None`, or a falsy empty record) it raises
`ValueError`; otherwise it computes the impact metrics and returns the
LLM text (an external call, passed here as `llmResponse`) with its
speech-cleaned form. -/
def generate_voice_summary (entries : List VSEntry) (profile : PyDict)
    (llmResponse : String) :
    Except String (String × String × ImpactMetrics) :=
  match get_latest_post entries with
  | none => Except.error "Aucun post trouvé pour générer un résumé vocal"
  | some latest_post =>
    if latest_post.isEmpty then
      Except.error "Aucun post trouvé pour générer un résumé vocal"
    else do
      let impact ← calculate_impact_metrics entries profile latest_post
      Except.ok (llmResponse, clean_text_for_speech llmResponse, impact)

/-- C8: over an empty vector store `get_latest_post` finds no record,
and `generate_voice_summary` fails with the explicit
`ValueError("Aucun post trouvé pour générer un résumé vocal")` instead
of returning a summary object. -/
theorem voice_summary_empty_store (entries : List VSEntry)
    (profile : PyDict) (llmResponse : String) (h : entries = []) :
    get_latest_post entries = none ∧
    generate_voice_summary entries profile llmResponse =
      Except.error "Aucun post trouvé pour générer un résumé vocal" := by
  subst h
  exact ⟨rfl, rfl⟩

/-- Witness for C8: the empty store. -/
theorem voice_summary_empty_store_witness :
    get_latest_post ([] : List VSEntry) = none ∧
    generate_voice_summary [] [] "Bravo pour ce post" =
      Except.error "Aucun post trouvé pour générer un résumé vocal" :=
  voice_summary_empty_store [] [] "Bravo pour ce post" rfl

/-- C9: whenever the unguarded `other_posts` average is not hit (the
one division the code leaves unguarded), `calculate_impact_metrics`
returns without a division error; a profile with `followers = 0` takes
the guard's `else 0` branch for the virality ratio, and a positive
followers count `n` yields `reach / n * 100`. -/
theorem impact_metrics_zero_followers (entries : List VSEntry)
    (profile post : PyDict)
    (hsafe : 1 < (vectorStoreGetAll entries).metadatas.length →
      otherPosts entries post ≠ []) :
    ∃ im, calculate_impact_metrics entries profile post = Except.ok im ∧
      (dictLookup profile "followers" = some (PyVal.scalar (Scalar.i 0)) →
        im.virality_ratio = 0) ∧
      (∀ n : ℤ, 0 < n →
        dictLookup profile "followers" = some (PyVal.scalar (Scalar.i n)) →
        im.virality_ratio =
          metricNum (metricsOf post) "reach" / (n : ℚ) * 100) := by
  unfold calculate_impact_metrics
  by_cases h1 : 1 < (vectorStoreGetAll entries).metadatas.length
  · rw [if_pos h1, if_neg (by simpa [List.length_eq_zero] using hsafe h1)]
    rw [except_bind_ok]
    refine ⟨_, rfl, ?_, ?_⟩
    · intro h0
      simp only [dictGetD, h0, Option.getD_some, pyNumD]
      rw [if_neg (by norm_num)]
    · intro n hn h0
      simp only [dictGetD, h0, Option.getD_some, pyNumD, metricNum, metricsOf]
      rw [if_pos (by exact_mod_cast hn)]
  · rw [if_neg h1, except_bind_ok]
    refine ⟨_, rfl, ?_, ?_⟩
    · intro h0
      simp only [dictGetD, h0, Option.getD_some, pyNumD]
      rw [if_neg (by norm_num)]
    · intro n hn h0
      simp only [dictGetD, h0, Option.getD_some, pyNumD, metricNum, metricsOf]
      rw [if_pos (by exact_mod_cast hn)]

/-- Witness for C9: a single-record store and a profile with zero
followers; the metrics come back without a division error and the
virality ratio is 0. -/
theorem impact_metrics_zero_followers_witness :
    ∃ im,
      calculate_impact_metrics
        [⟨"post_1", "doc", [("id", PyVal.scalar (Scalar.s "post_1"))]⟩]
        [("followers", PyVal.scalar (Scalar.i 0))]
        [("id", PyVal.scalar (Scalar.s "post_1"))] = Except.ok im ∧
      im.virality_ratio = 0 := by
  obtain ⟨im, hok, h0, h⟩ := impact_metrics_zero_followers
    [⟨"post_1", "doc", [("id", PyVal.scalar (Scalar.s "post_1"))]⟩]
    [("followers", PyVal.scalar (Scalar.i 0))]
    [("id", PyVal.scalar (Scalar.s "post_1"))]
    (fun hlen => absurd hlen (by decide))
  exact ⟨im, hok, h0 rfl⟩
